import Mathlib

/-!
Verification of the tikets repository's ticket consistency core.

Shallow embedding conventions:
* SQL rows of the `tickets` table become the structure `Row`; the table becomes
  `Store := List Row` (the `id` column is the primary key; theorems that need
  uniqueness take a `Nodup` hypothesis on the ids).
* JS numbers holding timestamps / ids become `Int`; a SQL `NULL` in the
  `updated_at_ts` column is modelled as `0`, which is faithful because every
  read of that column in the source goes through `COALESCE(x, 0)` or
  `Number(x ?? 0) || 0`.
* JS strings become `String`; JS `<` / `>` on strings is code-unit
  lexicographic comparison, embedded as the executable `jsLt`.
* The nullable SQL `deleted_at` column is `Option String`.
* `CURRENT_TIMESTAMP` / `Date.now()` are passed in explicitly as the
  parameters `nowStr` / `nowTs` of each operation.
-/

namespace Tikets

/-- A persisted row of the `tickets` table (see `schema.sql` and the columns
added by `ensureSoftDeleteColumns`). -/
structure Row where
  id : Int
  date : String
  issue : String
  department : String
  name : String
  solution : String
  remarks : String
  type : String
  is_deleted : Nat
  deleted_at : Option String
  updated_at : String
  updated_at_ts : Int
deriving DecidableEq, Repr

/-- The ticket store: the `tickets` table as a list of rows. -/
abbrev Store := List Row

/-- An incoming import record after `normalizeRecord` (import apply,
src/unnamed/part_002 lines 84-115): `id` is `null` when the raw id was not a
finite number, `updated_at` is the trimmed display timestamp, `updated_at_ts`
the numeric timestamp (explicit field if positive, else the parse of the
display string, else 0), `is_deleted` is 0/1, `deleted_at` the trimmed raw
string ("" when absent). -/
structure NormRecord where
  id : Option Int
  date : String
  issue : String
  department : String
  name : String
  solution : String
  remarks : String
  type : String
  updated_at : String
  updated_at_ts : Int
  is_deleted : Nat
  deleted_at : String
deriving DecidableEq, Repr

/-- `has_version` as computed by `normalizeRecord` (line 111):
`(updated_at_ts > 0) || (updatedAt.length > 0)`. -/
def NormRecord.has_version (r : NormRecord) : Bool :=
  decide (0 < r.updated_at_ts) || decide (0 < r.updated_at.length)

/-- JS `<` on strings: lexicographic comparison of UTF-16 code units. -/
def jsLtChars : List Char → List Char → Bool
  | [], [] => false
  | [], _ :: _ => true
  | _ :: _, [] => false
  | a :: as, b :: bs =>
    if a.toNat < b.toNat then true
    else if b.toNat < a.toNat then false
    else jsLtChars as bs

/-- JS `a < b` on strings (`a > b` is `jsLt b a`). -/
def jsLt (a b : String) : Bool :=
  jsLtChars a.data b.data

/-- Largest id currently allocated; the SQLite rowid allocator hands out
`max + 1` for an INTEGER PRIMARY KEY insert with NULL id. -/
def freshId (s : Store) : Int :=
  (s.foldl (fun m row => max m row.id) 0) + 1

/-- The VALUES part of the import-apply upsert statement
(src/unnamed/part_002 lines 247-270) evaluated at the bound parameters of the
loop at lines 285-311: `deleted_at` is
`CASE WHEN is_deleted=1 THEN COALESCE(NULLIF(deleted_at,''), CURRENT_TIMESTAMP) ELSE NULL END`,
`updated_at` is `COALESCE(NULLIF(updated_at,''), CURRENT_TIMESTAMP)` and
`updated_at_ts` is `CASE WHEN hasVer=1 THEN incomingTs ELSE tsForInsert END`
with `tsForInsert = incomingTs > 0 ? incomingTs : nowTs`. -/
def rowOfIncoming (r : NormRecord) (assignedId : Int) (nowTs : Int) (nowStr : String) : Row :=
  { id := assignedId
    date := r.date
    issue := r.issue
    department := r.department
    name := r.name
    solution := r.solution
    remarks := r.remarks
    type := r.type
    is_deleted := r.is_deleted
    deleted_at :=
      if r.is_deleted = 1 then some (if r.deleted_at = "" then nowStr else r.deleted_at) else none
    updated_at := if r.updated_at = "" then nowStr else r.updated_at
    updated_at_ts :=
      if r.has_version then r.updated_at_ts
      else if 0 < r.updated_at_ts then r.updated_at_ts else nowTs }

/-- Effect of one execution of the import-apply `upsert` statement
(src/unnamed/part_002 lines 247-270): insert when the id is NULL or matches no
row; on conflict, overwrite all listed columns with the excluded values but
only `WHERE (hasVer=1) AND COALESCE(excluded.updated_at_ts,0) > COALESCE(tickets.updated_at_ts,0)`. -/
def upsert (s : Store) (r : NormRecord) (nowTs : Int) (nowStr : String) : Store :=
  match r.id with
  | none => s ++ [rowOfIncoming r (freshId s) nowTs nowStr]
  | some i =>
    if (s.find? (fun row => row.id == i)).isSome then
      s.map (fun row =>
        if row.id = i ∧ r.has_version = true ∧ row.updated_at_ts < r.updated_at_ts
        then rowOfIncoming r i nowTs nowStr
        else row)
    else s ++ [rowOfIncoming r i nowTs nowStr]

/-- Classification counters of the import endpoints. -/
structure Counts where
  inserts : Nat
  updates : Nat
  skips : Nat
  skipped_newer_or_equal : Nat
deriving DecidableEq, Repr

/-- Snapshot entry of an existing row: numeric timestamp and display string. -/
abbrev Entry := Int × String

/-- `Map.get` on the snapshot map (an association list keyed by id). -/
def lookupEntry (m : List (Int × Entry)) (i : Int) : Option Entry :=
  (m.find? (fun e => e.1 == i)).map (fun e => e.2)

/-- `Map.set` on the snapshot map: replace the entry if present, else append. -/
def setEntry (m : List (Int × Entry)) (i : Int) (v : Entry) : List (Int × Entry) :=
  if (m.find? (fun e => e.1 == i)).isSome then
    m.map (fun e => if e.1 = i then (i, v) else e)
  else m ++ [(i, v)]

/-- Snapshot fetched by the apply endpoint's `fetchExistingUpdatedMap`
(src/unnamed/part_002 lines 187-204): for every stored row whose id occurs in
the incoming batch, `{ts: Number(updated_at_ts ?? 0) || 0, s: String(updated_at ?? "")}`
(note: no trimming). -/
def applyExistingMap (s : Store) (incoming : List NormRecord) : List (Int × Entry) :=
  s.filterMap (fun row =>
    if (incoming.filterMap (fun r => r.id)).contains row.id then
      some (row.id, (row.updated_at_ts, row.updated_at))
    else none)

/-- One step of the apply endpoint's best-effort stats loop
(src/unnamed/part_002 lines 314-327), threading the mutable `existingMap`. -/
def applyStatsStep (nowTs : Int) (st : List (Int × Entry) × Counts) (r : NormRecord) :
    List (Int × Entry) × Counts :=
  let m := st.1
  let c := st.2
  let incomingTs := r.updated_at_ts
  match r.id with
  | none => (m, { c with inserts := c.inserts + 1 })
  | some i =>
    match lookupEntry m i with
    | none =>
      (setEntry m i ((if 0 < incomingTs then incomingTs else nowTs), r.updated_at),
       { c with inserts := c.inserts + 1 })
    | some prev =>
      if r.has_version = true ∧
          ((0 < incomingTs ∧ prev.1 < incomingTs) ∨ (incomingTs = 0 ∧ jsLt prev.2 r.updated_at = true)) then
        (setEntry m i ((if 0 < incomingTs then incomingTs else nowTs), r.updated_at),
         { c with updates := c.updates + 1 })
      else
        (m, { c with skips := c.skips + 1,
                     skipped_newer_or_equal := c.skipped_newer_or_equal + 1 })

/-- `{inserts, updates, skips, skipped_newer_or_equal}` reported by the apply
endpoint (src/unnamed/part_002 lines 274-335, batching does not affect the
counters because the map is threaded across batches). -/
def applyCounts (s : Store) (incoming : List NormRecord) (nowTs : Int) : Counts :=
  (incoming.foldl (applyStatsStep nowTs) (applyExistingMap s incoming, ⟨0, 0, 0, 0⟩)).2

/-- Store state after the apply endpoint has executed the upsert for every
incoming record, in order (src/unnamed/part_002 lines 280-335). -/
def applyStore (s : Store) (incoming : List NormRecord) (nowTs : Int) (nowStr : String) : Store :=
  incoming.foldl (fun acc r => upsert acc r nowTs nowStr) s

/-- JS whitespace as met by the code (space, tab, newline, carriage return). -/
def isJsWs (c : Char) : Bool :=
  c = ' ' || c = '\t' || c = '\n' || c = '\r'

/-- JS `String.prototype.trim` on the whitespace the code can meet. -/
def jsTrim (s : String) : String :=
  String.mk (((s.data.dropWhile isJsWs).reverse.dropWhile isJsWs).reverse)

/-- Snapshot fetched by the preview endpoint's `fetchExistingMap`
(src/unnamed/part_002 lines 841-858): same columns but the display string is
trimmed. -/
def previewExistingMap (s : Store) (incoming : List NormRecord) : List (Int × Entry) :=
  s.filterMap (fun row =>
    if (incoming.filterMap (fun r => r.id)).contains row.id then
      some (row.id, (row.updated_at_ts, jsTrim row.updated_at))
    else none)

/-- One record's classification in the preview loop (src/unnamed/part_002
lines 899-925).  The source's line 907 guard `existingUpdatedAt === undefined`
is dead code there (`existingUpdatedAt` is always a string), so a finite id
absent from the snapshot falls through to the version comparison below. -/
def previewStep (m : List (Int × Entry)) (c : Counts) (r : NormRecord) : Counts :=
  match r.id with
  | none => { c with inserts := c.inserts + 1 }
  | some i =>
    let existing := lookupEntry m i
    let existingTs : Int := match existing with | some e => e.1 | none => 0
    let existingUpdatedAt : String := match existing with | some e => e.2 | none => ""
    let incomingTs := r.updated_at_ts
    let hasIncomingVersion : Bool := decide (0 < incomingTs) || decide (r.updated_at ≠ "")
    if hasIncomingVersion = false then
      { c with skips := c.skips + 1, skipped_newer_or_equal := c.skipped_newer_or_equal + 1 }
    else if (0 < incomingTs ∧ 0 ≤ existingTs ∧ existingTs < incomingTs) ∨
            (incomingTs = 0 ∧ jsLt existingUpdatedAt r.updated_at = true) then
      { c with updates := c.updates + 1 }
    else
      { c with skips := c.skips + 1, skipped_newer_or_equal := c.skipped_newer_or_equal + 1 }

/-- `{inserts, updates, skips, skipped_newer_or_equal}` reported by the
preview (dry-run) endpoint (src/unnamed/part_002 lines 894-925). -/
def previewCounts (s : Store) (incoming : List NormRecord) : Counts :=
  incoming.foldl (previewStep (previewExistingMap s incoming)) ⟨0, 0, 0, 0⟩

/-! ## Single-record operations -/

/-- Request body of `PUT /api/tickets/:id` (src/functions/api/tickets/[id].js):
`updated_at_ts` is the raw client numeric token (`none` when absent or not a
finite number), `updated_at` the raw client string token. -/
structure PutReq where
  date : String
  issue : String
  department : String
  name : String
  solution : String
  remarks : String
  type : String
  force : Bool
  updated_at_ts : Option Int
  updated_at : String
deriving DecidableEq, Repr

/-- `hasClientTs` (line 87): the numeric token is finite and positive. -/
def PutReq.hasClientTs (req : PutReq) : Bool :=
  match req.updated_at_ts with
  | some t => decide (0 < t)
  | none => false

/-- Typed outcome of the update endpoint. -/
inductive PutResult where
  | validation
  | notFound
  | deletedErr
  | missingVersion
  | conflict (current : Option Row) (client_updated_at : String)
      (client_updated_at_ts : Option Int)
      (server_updated_at : String) (server_updated_at_ts : Int)
  | ok (updated_at : String) (updated_at_ts : Int)
deriving DecidableEq, Repr

/-- HTTP status attached to each `PutResult` by `jsonResponse`. -/
def PutResult.status : PutResult → Nat
  | .validation => 400
  | .notFound => 404
  | .deletedErr => 410
  | .missingVersion => 400
  | .conflict _ _ _ _ _ => 409
  | .ok _ _ => 200

/-- The SET clause of the update statement (lines 124-147). -/
def putUpdateRow (req : PutReq) (nowTs : Int) (nowStr : String) (row : Row) : Row :=
  { row with date := jsTrim req.date, issue := jsTrim req.issue, department := req.department,
             name := req.name, solution := req.solution, remarks := req.remarks,
             type := req.type, updated_at := nowStr, updated_at_ts := nowTs }

/-- `onRequestPut` of src/functions/api/tickets/[id].js (new-schema path,
lines 55-173): validate, fetch current, reject deleted rows, then run the
conditional `UPDATE ... WHERE id=? AND is_deleted=0 AND <token match>` and
report a conflict when zero rows changed and `force` was not set. -/
def onRequestPut (s : Store) (id : Int) (req : PutReq) (nowTs : Int) (nowStr : String) :
    Store × PutResult :=
  let date := jsTrim req.date
  let issue := jsTrim req.issue
  if date = "" ∨ issue = "" then (s, .validation)
  else
    let clientUpdatedAt := jsTrim req.updated_at
    match s.find? (fun row => row.id == id) with
    | none => (s, .notFound)
    | some current =>
      if current.is_deleted = 1 then (s, .deletedErr)
      else if req.force = false ∧ req.hasClientTs = false ∧ clientUpdatedAt = "" then
        (s, .missingVersion)
      else
        let tokenOk : Row → Bool := fun row =>
          if req.force then true
          else if req.hasClientTs then row.updated_at_ts == req.updated_at_ts.getD 0
          else row.updated_at == clientUpdatedAt
        let matched : Row → Bool := fun row =>
          row.id == id && row.is_deleted == 0 && tokenOk row
        let s' := s.map (fun row =>
          if matched row then putUpdateRow req nowTs nowStr row else row)
        let changes := (s.filter matched).length
        if changes = 0 ∧ req.force = false then
          let latest := s'.find? (fun row => row.id == id)
          let shown := latest.getD current
          (s', .conflict (some shown) clientUpdatedAt
            (if req.hasClientTs then req.updated_at_ts else none)
            shown.updated_at shown.updated_at_ts)
        else
          let latest := s'.find? (fun row => row.id == id)
          (s', .ok ((latest.map Row.updated_at).getD "")
            (match latest with
             | some row => if row.updated_at_ts = 0 then nowTs else row.updated_at_ts
             | none => nowTs))

/-- Typed outcome of the soft-delete endpoint. -/
inductive DeleteResult where
  | notFound
  | alreadyDeleted
  | deleteFailed
  | okSoft
deriving DecidableEq, Repr

/-- HTTP status attached to each `DeleteResult`. -/
def DeleteResult.status : DeleteResult → Nat
  | .notFound => 404
  | .alreadyDeleted => 200
  | .deleteFailed => 500
  | .okSoft => 200

/-- `onRequestDelete` of src/functions/api/tickets/[id].js (new-schema path,
lines 252-298): `UPDATE ... SET is_deleted=1, deleted_at=CURRENT_TIMESTAMP,
updated_at=CURRENT_TIMESTAMP, updated_at_ts=? WHERE id=? AND is_deleted=0`;
zero changes then re-fetch: missing row is 404, already-deleted row answers
`{ok:true, already:true, soft:true}`. -/
def deleteMarkRow (nowTs : Int) (nowStr : String) (row : Row) : Row :=
  { row with is_deleted := 1, deleted_at := some nowStr,
             updated_at := nowStr, updated_at_ts := nowTs }

def onRequestDelete (s : Store) (id : Int) (nowTs : Int) (nowStr : String) :
    Store × DeleteResult :=
  let matched : Row → Bool := fun row => row.id == id && row.is_deleted == 0
  let s' := s.map (fun row => if matched row then deleteMarkRow nowTs nowStr row else row)
  let changes := (s.filter matched).length
  if changes = 0 then
    match s'.find? (fun row => row.id == id) with
    | none => (s', .notFound)
    | some latest =>
      if latest.is_deleted = 1 then (s', .alreadyDeleted) else (s', .deleteFailed)
  else (s', .okSoft)

/-- Typed outcome of the restore endpoint. -/
inductive RestoreResult where
  | notFound
  | alreadyActive
  | okRestored
deriving DecidableEq, Repr

/-- HTTP status attached to each `RestoreResult`. -/
def RestoreResult.status : RestoreResult → Nat
  | .notFound => 404
  | .alreadyActive => 200
  | .okRestored => 200

/-- `onRequestPut` of src/functions/api/tickets/[id]/restore.js (lines 42-95):
`UPDATE ... SET is_deleted=0, deleted_at=NULL, updated_at=CURRENT_TIMESTAMP,
updated_at_ts=? WHERE id=? AND is_deleted=1`; zero changes then re-fetch:
missing row is 404, an existing (hence active) row answers
`{ok:true, already:true}`. -/
def restoreMarkRow (nowTs : Int) (nowStr : String) (row : Row) : Row :=
  { row with is_deleted := 0, deleted_at := none,
             updated_at := nowStr, updated_at_ts := nowTs }

def restorePut (s : Store) (id : Int) (nowTs : Int) (nowStr : String) :
    Store × RestoreResult :=
  let matched : Row → Bool := fun row => row.id == id && row.is_deleted == 1
  let s' := s.map (fun row => if matched row then restoreMarkRow nowTs nowStr row else row)
  let changes := (s.filter matched).length
  if changes = 0 then
    match s'.find? (fun row => row.id == id) with
    | none => (s', .notFound)
    | some _ => (s', .alreadyActive)
  else (s', .okRestored)

/-- `onRequestPost` of src/functions/api/tickets.js (lines 401-464): insert a
new row (store-assigned id, `updated_at=CURRENT_TIMESTAMP`, explicit
`updated_at_ts`; `is_deleted`/`deleted_at` take their schema defaults 0/NULL). -/
def createTicket (s : Store) (date issue department name solution remarks type : String)
    (nowTs : Int) (nowStr : String) : Store :=
  s ++ [{ id := freshId s, date := date, issue := issue, department := department,
          name := name, solution := solution, remarks := remarks, type := type,
          is_deleted := 0, deleted_at := none,
          updated_at := nowStr, updated_at_ts := nowTs }]

/-- A successful-path mutation of the store, as performed by the endpoints. -/
inductive Mutation where
  | create (date issue department name solution remarks type : String)
  | update (id : Int) (req : PutReq)
  | softDelete (id : Int)
  | restore (id : Int)
  | importUpsert (r : NormRecord)
deriving Repr

/-- Store state after one mutation (the store component of each endpoint's
effect). -/
def applyMutation (s : Store) (m : Mutation) (nowTs : Int) (nowStr : String) : Store :=
  match m with
  | .create date issue department name solution remarks type =>
      createTicket s date issue department name solution remarks type nowTs nowStr
  | .update id req => (onRequestPut s id req nowTs nowStr).1
  | .softDelete id => (onRequestDelete s id nowTs nowStr).1
  | .restore id => (restorePut s id nowTs nowStr).1
  | .importUpsert r => upsert s r nowTs nowStr

/-- The §3 invariant: a row is flagged deleted iff its `deleted_at` column is
non-null. -/
def DeletedIffFlag (s : Store) : Prop :=
  ∀ row ∈ s, (row.is_deleted = 1 ↔ row.deleted_at ≠ none)

/-- The Version Resolver's `isNewer` rule, written from the spec's words
(§4.1): "if `incoming.ts > 0`, compare numerically (`incoming.ts > stored.ts`);
otherwise fall back to lexicographic string comparison on the display token."
Used only to compare the code's write condition against the spec. -/
def spec_isNewer (incomingTs : Int) (incomingStr : String) (storedTs : Int) (storedStr : String) : Bool :=
  if 0 < incomingTs then decide (storedTs < incomingTs) else jsLt storedStr incomingStr

/-! ## Keyset cursor codec (src/functions/api/tickets.js lines 91-125)

`btoa`/`atob` and `JSON.stringify`/`JSON.parse` are platform functions; they
are modelled here at the character-code level: a JS string is a sequence of
UTF-16 code units, `btoa` maps each unit below 256 to a byte and throws
otherwise (modelled as `none`), `atob` is its partial inverse. -/

/-- The standard base64 alphabet. -/
def b64alphabet : List Char :=
  ("ABCDEFGHIJKLMNOPQRSTUVWXYZabcdefghijklmnopqrstuvwxyz0123456789+/").data

/-- Character for a sextet value. -/
def b64char (i : Nat) : Char :=
  b64alphabet.getD i 'A'

/-- Inverse of `b64char` on the alphabet. -/
def b64inv (c : Char) : Option Nat :=
  b64alphabet.indexOf? c

/-- Modelled from the platform: `btoa`'s base64 output (with padding) of a
byte sequence. -/
def encodeB64 : List Nat → List Char
  | [] => []
  | [a] => [b64char (a / 4), b64char (a % 4 * 16), '=', '=']
  | [a, b] => [b64char (a / 4), b64char (a % 4 * 16 + b / 16), b64char (b % 16 * 4), '=']
  | a :: b :: c :: rest =>
      b64char (a / 4) :: b64char (a % 4 * 16 + b / 16) :: b64char (b % 16 * 4 + c / 64) ::
        b64char (c % 64) :: encodeB64 rest

/-- Modelled from the platform: `atob`'s byte output; `none` models the
`InvalidCharacterError` the source catches. -/
def deB64 : List Char → Option (List Nat)
  | [] => some []
  | [c1, c2, '=', '='] => do
      let v1 ← b64inv c1
      let v2 ← b64inv c2
      pure [v1 * 4 + v2 / 16]
  | [c1, c2, c3, '='] => do
      let v1 ← b64inv c1
      let v2 ← b64inv c2
      let v3 ← b64inv c3
      pure [v1 * 4 + v2 / 16, v2 % 16 * 16 + v3 / 4]
  | c1 :: c2 :: c3 :: c4 :: rest => do
      let v1 ← b64inv c1
      let v2 ← b64inv c2
      let v3 ← b64inv c3
      let v4 ← b64inv c4
      let tail ← deB64 rest
      pure ((v1 * 4 + v2 / 16) :: (v2 % 16 * 16 + v3 / 4) :: (v3 % 4 * 64 + v4) :: tail)
  | _ => none

/-- The URL-safe substitution: plus becomes minus, slash becomes underscore. -/
def toUrlChar (c : Char) : Char :=
  if c = '+' then '-' else if c = '/' then '_' else c

/-- Undo the URL-safe substitution: minus becomes plus, underscore becomes slash. -/
def fromUrlChar (c : Char) : Char :=
  if c = '-' then '+' else if c = '_' then '/' else c

/-- Strip the trailing run of padding characters (the global replace of a
trailing run of equals signs). -/
def dropTrailingEq (l : List Char) : List Char :=
  (l.reverse.dropWhile (fun c => c = '=')).reverse

/-- Modelled from the platform: `btoa`'s view of a JS string as bytes;
`none` when some code unit exceeds 255 (btoa throws). -/
def btoaBytes (l : List Char) : Option (List Nat) :=
  if l.all (fun c => c.toNat < 256) then some (l.map Char.toNat) else none

/-- `b64urlEncodeFromString` (src/functions/api/tickets.js lines 103-106);
`none` models the btoa exception escaping the (uncaught) call. -/
def b64urlEncodeFromString (input : String) : Option String :=
  (btoaBytes input.data).map (fun bytes =>
    String.mk (dropTrailingEq ((encodeB64 bytes).map toUrlChar)))

/-- `b64urlDecodeToString` (src/functions/api/tickets.js lines 91-101): trim,
re-pad to a multiple of four, undo the URL-safe substitution, `atob`; any
failure yields `""`. -/
def b64urlDecodeToString (input : String) : String :=
  let s := (jsTrim input).data
  if s.isEmpty then "" else
  let pad : List Char := if s.length % 4 = 0 then [] else List.replicate (4 - s.length % 4) '='
  match deB64 ((s ++ pad).map fromUrlChar) with
  | none => ""
  | some bytes => String.mk (bytes.map Char.ofNat)

/-- Lowercase hexadecimal digit, as produced by `JSON.stringify`'s `\u00xx`
escapes. -/
def hexDigitChar (n : Nat) : Char :=
  if n < 10 then Char.ofNat (48 + n) else Char.ofNat (87 + n)

/-- Modelled from the platform: `JSON.stringify`'s escaping of one string
character. -/
def escChar (c : Char) : List Char :=
  if c = '"' then ['\\', '"']
  else if c = '\\' then ['\\', '\\']
  else if c = Char.ofNat 8 then ['\\', 'b']
  else if c = Char.ofNat 9 then ['\\', 't']
  else if c = Char.ofNat 10 then ['\\', 'n']
  else if c = Char.ofNat 12 then ['\\', 'f']
  else if c = Char.ofNat 13 then ['\\', 'r']
  else if c.toNat < 32 then
    ['\\', 'u', '0', '0', hexDigitChar (c.toNat / 16), hexDigitChar (c.toNat % 16)]
  else [c]

/-- Escaped body of a JSON string literal. -/
def escList (l : List Char) : List Char :=
  (l.map escChar).flatten

/-- Decimal digit character. -/
def digitChar (d : Nat) : Char :=
  Char.ofNat (48 + d)

/-- Decimal digits of a natural number, most significant first (the decimal
notation `String(n)` uses). -/
def natDigits (n : Nat) : List Char :=
  if n < 10 then [digitChar n]
  else natDigits (n / 10) ++ [digitChar (n % 10)]
decreasing_by exact Nat.div_lt_self (by omega) (by omega)

/-- `String(i)` for an integer JS number. -/
def intChars (i : Int) : List Char :=
  if i < 0 then '-' :: natDigits (-i).toNat else natDigits i.toNat

/-- Modelled from the platform:
`JSON.stringify({v: String(v), id: Number(id)})` for a string `v` and an
integer `id` (the object shape built by `encodeCursor`). -/
def jsonOfCursor (v : String) (id : Int) : List Char :=
  '\x7b' :: '"' :: 'v' :: '"' :: ':' :: '"' ::
    (escList v.data ++ ('"' :: ',' :: '"' :: 'i' :: 'd' :: '"' :: ':' ::
      (intChars id ++ ['\x7d'])))

/-- `encodeCursor` (src/functions/api/tickets.js lines 123-125). -/
def encodeCursor (v : String) (id : Int) : Option String :=
  b64urlEncodeFromString (String.mk (jsonOfCursor v id))

/-- Hexadecimal digit value (JSON `\uXXXX` escapes accept both cases). -/
def hexVal (c : Char) : Option Nat :=
  if 48 ≤ c.toNat ∧ c.toNat ≤ 57 then some (c.toNat - 48)
  else if 97 ≤ c.toNat ∧ c.toNat ≤ 102 then some (c.toNat - 87)
  else if 65 ≤ c.toNat ∧ c.toNat ≤ 70 then some (c.toNat - 55)
  else none

/-- Modelled from the platform: JSON string-literal body parser (input starts
after the opening quote; returns the unescaped content and the remainder after
the closing quote). -/
def unesc (l : List Char) : Option (List Char × List Char) :=
  match l with
  | [] => none
  | c :: rest =>
    if c = '"' then some ([], rest)
    else if c = '\\' then
      match rest with
      | [] => none
      | e :: rest2 =>
        if e = '"' then (unesc rest2).map (fun p => ('"' :: p.1, p.2))
        else if e = '\\' then (unesc rest2).map (fun p => ('\\' :: p.1, p.2))
        else if e = '/' then (unesc rest2).map (fun p => ('/' :: p.1, p.2))
        else if e = 'b' then (unesc rest2).map (fun p => (Char.ofNat 8 :: p.1, p.2))
        else if e = 't' then (unesc rest2).map (fun p => (Char.ofNat 9 :: p.1, p.2))
        else if e = 'n' then (unesc rest2).map (fun p => (Char.ofNat 10 :: p.1, p.2))
        else if e = 'f' then (unesc rest2).map (fun p => (Char.ofNat 12 :: p.1, p.2))
        else if e = 'r' then (unesc rest2).map (fun p => (Char.ofNat 13 :: p.1, p.2))
        else if e = 'u' then
          match rest2 with
          | h1 :: h2 :: h3 :: h4 :: rest3 =>
            match hexVal h1, hexVal h2, hexVal h3, hexVal h4 with
            | some a, some b, some c', some d =>
              (unesc rest3).map (fun p => (Char.ofNat (((a * 16 + b) * 16 + c') * 16 + d) :: p.1, p.2))
            | _, _, _, _ => none
          | _ => none
        else none
    else (unesc rest).map (fun p => (c :: p.1, p.2))
termination_by l.length

/-- Digit test for the number parser. -/
def isDigitCh (c : Char) : Bool :=
  decide (48 ≤ c.toNat ∧ c.toNat ≤ 57)

/-- Greedy decimal-digit parse. -/
def parseDigits (l : List Char) : Option (Nat × List Char) :=
  let ds := l.takeWhile isDigitCh
  if ds.isEmpty then none
  else some (ds.foldl (fun acc c => acc * 10 + (c.toNat - 48)) 0, l.dropWhile isDigitCh)

/-- Integer parse (optional leading minus). -/
def parseInt (l : List Char) : Option (Int × List Char) :=
  match l with
  | [] => none
  | c :: rest =>
    if c = '-' then (parseDigits rest).map (fun p => (-(p.1 : Int), p.2))
    else (parseDigits l).map (fun p => ((p.1 : Int), p.2))

/-- Consume an exact literal prefix. -/
def expectChars : List Char → List Char → Option (List Char)
  | [], l => some l
  | _ :: _, [] => none
  | p :: ps, c :: l => if c = p then expectChars ps l else none

/-- Modelled from the platform: `JSON.parse` as used by `decodeCursor`,
restricted to the canonical text shape `\x7b"v":<string>,"id":<integer>\x7d`
that `encodeCursor` emits; all other texts yield no cursor, matching
`decodeCursor`'s null result for unparseable or structurally invalid tokens. -/
def parseCursorJson (l : List Char) : Option (String × Int) := do
  let l1 ← expectChars ('\x7b' :: '"' :: 'v' :: '"' :: ':' :: '"' :: []) l
  let (content, l2) ← unesc l1
  let l3 ← expectChars (',' :: '"' :: 'i' :: 'd' :: '"' :: ':' :: []) l2
  let (n, l4) ← parseInt l3
  let l5 ← expectChars ('\x7d' :: []) l4
  if l5.isEmpty then some (String.mk content, n) else none

/-- A decoded page boundary. -/
structure Cursor where
  v : String
  id : Int
deriving DecidableEq, Repr

/-- `decodeCursor` (src/functions/api/tickets.js lines 108-121): empty,
malformed or structurally invalid tokens yield no cursor; otherwise the
boundary `{v: String(obj.v), id: Math.trunc(Number(obj.id))}` (`Math.trunc`
is the identity on the integers modelled here). -/
def decodeCursor (raw : String) : Option Cursor :=
  let txt := b64urlDecodeToString raw
  if txt = "" then none
  else
    match parseCursorJson txt.data with
    | none => none
    | some (v, id) => if v = "" then none else some ⟨v, id⟩

/-! ## Keyset pagination (src/functions/api/tickets.js lines 155-276) -/

/-- The sort column of a listing: `deleted_at` for trash, `date` otherwise
(line 221); `date` is NOT NULL, `deleted_at` may be NULL. -/
def sqlKey (trash : Bool) (row : Row) : Option String :=
  if trash then row.deleted_at else some row.date

/-- The prev-direction keyset WHERE clause (lines 236-237):
`(sort_key < v) OR (sort_key = v AND id < cursor.id)` under SQL three-valued
logic — a row whose sort key is NULL is not selected. -/
def keysetPrev (trash : Bool) (c : Cursor) (row : Row) : Bool :=
  match sqlKey trash row with
  | none => false
  | some k => jsLt k c.v || (decide (k = c.v) && decide (row.id < c.id))

/-- SQLite ordering on a nullable TEXT column (NULL sorts smallest). -/
def optKeyLt : Option String → Option String → Bool
  | none, none => false
  | none, some _ => true
  | some _, none => false
  | some x, some y => jsLt x y

/-- `ORDER BY sort_key DESC, id DESC` as a total preorder for sorting:
`a` may precede `b` iff `(key b, id b)` is at most `(key a, id a)`
lexicographically. -/
def descLe (trash : Bool) (a b : Row) : Bool :=
  optKeyLt (sqlKey trash b) (sqlKey trash a) ||
    (decide (sqlKey trash b = sqlKey trash a) && decide (b.id ≤ a.id))

/-- The ascending `(sort_key, id)` strict order the client is promised. -/
def ascLt (trash : Bool) (a b : Row) : Prop :=
  optKeyLt (sqlKey trash a) (sqlKey trash b) = true ∨
    (sqlKey trash a = sqlKey trash b ∧ a.id < b.id)

/-- The prev-direction page query (lines 230-264): filter by `is_deleted`
and the keyset predicate, `ORDER BY sort_key DESC, id DESC`, `LIMIT pageSize`,
then reverse in memory. -/
def queryPrev (s : Store) (trash : Bool) (c : Cursor) (pageSize : Nat) : List Row :=
  ((((s.filter (fun row =>
        (row.is_deleted == (if trash then (1 : Nat) else 0)) && keysetPrev trash c row)).mergeSort
      (descLe trash)).take pageSize)).reverse

/-- Page response: the rows plus the derived cursors (outer `none` is the JS
null for an empty page; the inner option is `encodeCursor`'s result). -/
structure ListResp where
  data : List Row
  next_cursor : Option (Option String)
  prev_cursor : Option (Option String)
deriving DecidableEq, Repr

/-- `first[cursorKey]` as the string handed to `encodeCursor` (a NULL sort
key prints as the string "null" through `String(v)`). -/
def cursorKeyStr (trash : Bool) (row : Row) : String :=
  match sqlKey trash row with
  | some s => s
  | none => "null"

/-- `onRequestGet` restricted to a supplied cursor with `direction=prev`
(lines 230-276): the reversed page plus `next_cursor` from the last returned
row and `prev_cursor` from the first returned row. -/
def onRequestGet_prev (s : Store) (trash : Bool) (c : Cursor) (pageSize : Nat) : ListResp :=
  let rows := queryPrev s trash c pageSize
  { data := rows
    next_cursor := rows.getLast?.map (fun r => encodeCursor (cursorKeyStr trash r) r.id)
    prev_cursor := rows.head?.map (fun r => encodeCursor (cursorKeyStr trash r) r.id) }

/-! ## Helper lemmas -/

theorem map_eq_self_of_all (l : List Row) (f : Row → Row) (h : ∀ x ∈ l, f x = x) :
    l.map f = l :=
  (List.map_congr_left h).trans (List.map_id l)

theorem find?_map_of_id_pres (l : List Row) (i : Int) (f : Row → Row)
    (hf : ∀ x, (f x).id = x.id) :
    (l.map f).find? (fun x => x.id == i) = (l.find? (fun x => x.id == i)).map f := by
  induction l with
  | nil => rfl
  | cons a t ih =>
    rw [List.map_cons, List.find?_cons, List.find?_cons, hf a]
    cases h : (a.id == i)
    · simpa using ih
    · simp

/-- The conditional-overwrite function of the `upsert` statement preserves ids. -/
theorem upsert_overwrite_id_pres (r : NormRecord) (i : Int) (nowTs : Int) (nowStr : String)
    (x : Row) :
    ((if x.id = i ∧ r.has_version = true ∧ x.updated_at_ts < r.updated_at_ts
      then rowOfIncoming r i nowTs nowStr else x)).id = x.id := by
  split
  · next h => exact h.1.symm
  · rfl

/-! ## Claim theorems -/

/-- C1: A record with no version information (`has_version = false`) never
changes an existing row through the import-apply upsert — the store is left
entirely unchanged when its id matches a stored row — and it results in an
insert exactly when its id is absent or matches no stored row. -/
theorem import_never_downgrade (s : Store) (r : NormRecord) (nowTs : Int) (nowStr : String)
    (hver : r.has_version = false) :
    (∀ i row, r.id = some i → s.find? (fun x => x.id == i) = some row →
      upsert s r nowTs nowStr = s) ∧
    (∀ i, r.id = some i → s.find? (fun x => x.id == i) = none →
      upsert s r nowTs nowStr = s ++ [rowOfIncoming r i nowTs nowStr]) ∧
    (r.id = none →
      upsert s r nowTs nowStr = s ++ [rowOfIncoming r (freshId s) nowTs nowStr]) := by
  refine ⟨?_, ?_, ?_⟩
  · intro i row hid hfind
    simp only [upsert, hid, hfind, Option.isSome_some, if_true]
    refine map_eq_self_of_all s _ (fun x _ => ?_)
    rw [if_neg]
    rintro ⟨-, hv, -⟩
    rw [hver] at hv
    exact Bool.false_ne_true hv
  · intro i hid hfind
    simp only [upsert, hid, hfind, Option.isSome_none, Bool.false_eq_true, if_false]
  · intro hid
    simp only [upsert, hid]

/-- C1 witness: a concrete version-less record whose id matches the single
stored row leaves the store unchanged. -/
theorem import_never_downgrade_witness :
    upsert [⟨1, "2025-01-01", "a", "", "", "", "", "", 0, none, "t1", 5⟩]
      ⟨some 1, "2025-02-02", "b", "", "", "", "", "", "", 0, 0, ""⟩ 99 "now" =
      [⟨1, "2025-01-01", "a", "", "", "", "", "", 0, none, "t1", 5⟩] :=
  (import_never_downgrade _ _ 99 "now" (by decide)).1 1
    ⟨1, "2025-01-01", "a", "", "", "", "", "", 0, none, "t1", 5⟩ rfl (by decide)

/-- C2 counterexample: an incoming record whose numeric timestamp is 0 but
whose display string is lexicographically newer than the stored one is
"strictly newer" per the Version Resolver rule, yet the apply-mode write
does not commit the overwrite (the write enforces only the numeric
comparison). -/
theorem upsert_ignores_string_fallback :
    spec_isNewer 0 "b" 0 "a" = true ∧
    upsert [⟨1, "d", "i", "", "", "", "", "", 0, none, "a", 0⟩]
      ⟨some 1, "d2", "i2", "", "", "", "", "", "b", 0, 0, ""⟩ 99 "now" =
      [⟨1, "d", "i", "", "", "", "", "", 0, none, "a", 0⟩] := by
  decide

/-- C2 (amended): for an existing id the apply-mode conditional write commits
the overwrite if and only if the record carries version information
(`has_version`) and its numeric timestamp is strictly greater than the stored
numeric timestamp — the Version Resolver's lexicographic string fallback is
not enforced inside the write; when the id matches no stored row the write
unconditionally inserts. -/
theorem upsert_commit_iff_numeric (s : Store) (r : NormRecord) (nowTs : Int) (nowStr : String)
    (i : Int) (hid : r.id = some i) :
    (∀ row, s.find? (fun x => x.id == i) = some row →
      (upsert s r nowTs nowStr).find? (fun x => x.id == i) =
        some (if r.has_version = true ∧ row.updated_at_ts < r.updated_at_ts
              then rowOfIncoming r i nowTs nowStr else row)) ∧
    (s.find? (fun x => x.id == i) = none →
      upsert s r nowTs nowStr = s ++ [rowOfIncoming r i nowTs nowStr]) := by
  constructor
  · intro row hfind
    have hrow : row.id = i := by
      have := List.find?_some hfind
      simpa using this
    simp only [upsert, hid, hfind, Option.isSome_some, if_true]
    rw [find?_map_of_id_pres s i _ (upsert_overwrite_id_pres r i nowTs nowStr), hfind,
      Option.map_some']
    congr 1
    exact if_congr (by simp [hrow]) rfl rfl
  · intro hfind
    simp only [upsert, hid, hfind, Option.isSome_none, Bool.false_eq_true, if_false]

/-- C2 witness: with version information and a strictly greater numeric
timestamp the write commits; the overwritten row is the excluded row. -/
theorem upsert_commit_iff_numeric_witness :
    (upsert [⟨1, "d", "i", "", "", "", "", "", 0, none, "a", 5⟩]
        ⟨some 1, "d2", "i2", "", "", "", "", "", "b", 9, 0, ""⟩ 99 "now").find?
        (fun x => x.id == 1) =
      some (if NormRecord.has_version ⟨some 1, "d2", "i2", "", "", "", "", "", "b", 9, 0, ""⟩ = true ∧
              (5 : Int) < 9
            then rowOfIncoming ⟨some 1, "d2", "i2", "", "", "", "", "", "b", 9, 0, ""⟩ 1 99 "now"
            else ⟨1, "d", "i", "", "", "", "", "", 0, none, "a", 5⟩) :=
  (upsert_commit_iff_numeric _ _ 99 "now" 1 rfl).1
    ⟨1, "d", "i", "", "", "", "", "", 0, none, "a", 5⟩ (by decide)

/-- `upsert` at a record with a concrete id. -/
theorem upsert_some_eq (s : Store) (r : NormRecord) (nowTs : Int) (nowStr : String) (j : Int)
    (hid : r.id = some j) :
    upsert s r nowTs nowStr =
      if (s.find? (fun row => row.id == j)).isSome then
        s.map (fun row =>
          if row.id = j ∧ r.has_version = true ∧ row.updated_at_ts < r.updated_at_ts
          then rowOfIncoming r j nowTs nowStr else row)
      else s ++ [rowOfIncoming r j nowTs nowStr] := by
  unfold upsert
  rw [hid]

/-- `upsert` at a record with no id. -/
theorem upsert_none_eq (s : Store) (r : NormRecord) (nowTs : Int) (nowStr : String)
    (hid : r.id = none) :
    upsert s r nowTs nowStr = s ++ [rowOfIncoming r (freshId s) nowTs nowStr] := by
  unfold upsert
  rw [hid]

/-- The store component of `onRequestDelete` is always the marking map. -/
theorem delete_store_eq (s : Store) (id : Int) (nowTs : Int) (nowStr : String) :
    (onRequestDelete s id nowTs nowStr).1 =
      s.map (fun row =>
        if (row.id == id && row.is_deleted == 0) = true
        then deleteMarkRow nowTs nowStr row else row) := by
  simp only [onRequestDelete]
  repeat' split
  all_goals rfl

/-- The store component of `restorePut` is always the restoring map. -/
theorem restore_store_eq (s : Store) (id : Int) (nowTs : Int) (nowStr : String) :
    (restorePut s id nowTs nowStr).1 =
      s.map (fun row =>
        if (row.id == id && row.is_deleted == 1) = true
        then restoreMarkRow nowTs nowStr row else row) := by
  simp only [restorePut]
  repeat' split
  all_goals rfl

/-- A successor-row monotonicity principle: if the new store is an
id-preserving map whose changed rows either keep a larger-or-equal timestamp
or get stamped with `nowTs`, the located row's timestamp cannot drop below
the clock bound. -/
theorem ts_mono_of_map (s : Store) (f : Row → Row) (i : Int) (row row' : Row) (nowTs : Int)
    (hf_id : ∀ x, (f x).id = x.id)
    (hf_ts : ∀ x, x.updated_at_ts ≤ (f x).updated_at_ts ∨ (f x).updated_at_ts = nowTs)
    (hbefore : s.find? (fun x => x.id == i) = some row)
    (hafter : (s.map f).find? (fun x => x.id == i) = some row')
    (hclock : row.updated_at_ts ≤ nowTs) :
    row.updated_at_ts ≤ row'.updated_at_ts := by
  rw [find?_map_of_id_pres s i f hf_id, hbefore, Option.map_some'] at hafter
  have hr : row' = f row := (Option.some.injEq _ _).mp hafter.symm
  rcases hf_ts row with h | h
  · exact hr ▸ h
  · rw [hr, h]
    exact hclock

/-- The store component of `onRequestPut` is either unchanged or an
update map: touched rows get the SET clause, others stay. -/
theorem put_store_cases (s : Store) (id : Int) (req : PutReq) (nowTs : Int) (nowStr : String) :
    (onRequestPut s id req nowTs nowStr).1 = s ∨
    ∃ p : Row → Bool, (onRequestPut s id req nowTs nowStr).1 =
      s.map (fun row => if p row = true then putUpdateRow req nowTs nowStr row else row) := by
  simp only [onRequestPut]
  repeat' split
  all_goals
    first
      | exact Or.inl rfl
      | exact Or.inr ⟨_, rfl⟩

/-- C4 counterexample: a force update whose wall clock (50) is behind the
stored timestamp (100) — reachable by first importing a record carrying a
future timestamp — decreases the stored `updated_at_ts`. -/
theorem version_ts_decrease_cex :
    ((applyMutation [⟨1, "d", "i", "", "", "", "", "", 0, none, "x", 100⟩]
        (.update 1 ⟨"d", "i", "", "", "", "", "", true, none, ""⟩) 50 "t").map Row.updated_at_ts)
      = [50] ∧ ((50 : Int) < 100) := by
  decide

/-- C4 (amended): across create, update, restore, soft-delete and
import-driven upserts, the stored `updated_at_ts` of any id never decreases,
provided the wall-clock timestamp minted for the mutation is not behind the
row's stored timestamp (import upserts need no such clock assumption, but a
stored future timestamp combined with a later wall-clock mutation — the
counterexample — does decrease it). -/
theorem version_ts_monotone (s : Store) (m : Mutation) (nowTs : Int) (nowStr : String)
    (i : Int) (row row' : Row)
    (hbefore : s.find? (fun x => x.id == i) = some row)
    (hafter : (applyMutation s m nowTs nowStr).find? (fun x => x.id == i) = some row')
    (hclock : row.updated_at_ts ≤ nowTs) :
    row.updated_at_ts ≤ row'.updated_at_ts := by
  cases m with
  | create date issue department name solution remarks type =>
    rw [applyMutation, createTicket, List.find?_append, hbefore] at hafter
    have : row = row' := (Option.some.injEq _ _).mp hafter
    exact this ▸ le_refl _
  | update id req =>
    rcases put_store_cases s id req nowTs nowStr with h | ⟨p, h⟩
    · rw [applyMutation, h, hbefore] at hafter
      have : row = row' := (Option.some.injEq _ _).mp hafter
      exact this ▸ le_refl _
    · rw [applyMutation, h] at hafter
      refine ts_mono_of_map s _ i row row' nowTs (fun x => ?_) (fun x => ?_) hbefore hafter hclock
      · split <;> rfl
      · split
        · exact Or.inr rfl
        · exact Or.inl (le_refl _)
  | softDelete id =>
    rw [applyMutation, delete_store_eq s id nowTs nowStr] at hafter
    refine ts_mono_of_map s _ i row row' nowTs (fun x => ?_) (fun x => ?_) hbefore hafter hclock
    · split <;> rfl
    · split
      · exact Or.inr rfl
      · exact Or.inl (le_refl _)
  | restore id =>
    rw [applyMutation, restore_store_eq s id nowTs nowStr] at hafter
    refine ts_mono_of_map s _ i row row' nowTs (fun x => ?_) (fun x => ?_) hbefore hafter hclock
    · split <;> rfl
    · split
      · exact Or.inr rfl
      · exact Or.inl (le_refl _)
  | importUpsert r =>
    rw [applyMutation] at hafter
    rcases hid : r.id with _ | j
    · rw [upsert_none_eq s r nowTs nowStr hid] at hafter
      rw [List.find?_append, hbefore] at hafter
      have : row = row' := (Option.some.injEq _ _).mp hafter
      exact this ▸ le_refl _
    · rw [upsert_some_eq s r nowTs nowStr j hid] at hafter
      by_cases hs : (s.find? (fun x => x.id == j)).isSome
      · rw [if_pos hs] at hafter
        refine le_trans ?_ (le_refl _)
        refine ts_mono_of_map s _ i row row' nowTs
          (upsert_overwrite_id_pres r j nowTs nowStr) (fun x => ?_) hbefore hafter hclock
        · split
          · next hcond =>
            refine Or.inl ?_
            have hv := hcond.2.1
            have hlt := hcond.2.2
            simp only [rowOfIncoming, hv, if_true]
            exact le_of_lt hlt
          · exact Or.inl (le_refl _)
      · rw [if_neg hs] at hafter
        rw [List.find?_append, hbefore] at hafter
        have : row = row' := (Option.some.injEq _ _).mp hafter
        exact this ▸ le_refl _

/-- C4 witness: a soft delete at a clock ahead of the stored timestamp keeps
the version non-decreasing. -/
theorem version_ts_monotone_witness :
    (10 : Int) ≤ 20 ∧
    ((applyMutation [⟨1, "d", "i", "", "", "", "", "", 0, none, "x", 10⟩]
        (.softDelete 1) 20 "t").find? (fun x => x.id == 1)) =
      some ⟨1, "d", "i", "", "", "", "", "", 1, some "t", "t", 20⟩ ∧
    (10 : Int) ≤ 20 :=
  ⟨by decide, by decide,
    version_ts_monotone [⟨1, "d", "i", "", "", "", "", "", 0, none, "x", 10⟩]
      (.softDelete 1) 20 "t" 1 ⟨1, "d", "i", "", "", "", "", "", 0, none, "x", 10⟩
      ⟨1, "d", "i", "", "", "", "", "", 1, some "t", "t", 20⟩
      (by decide) (by decide) (by decide)⟩

/-- C3: preview and apply do NOT classify identically against the same store
state: on an empty store, a record with a finite id and no version
information is classified as a skip by the preview loop (its
`existingUpdatedAt === undefined` insert check is dead code) but as an insert
by the apply loop. -/
theorem preview_apply_classification_diverge :
    previewCounts [] [⟨some 1, "d", "i", "", "", "", "", "", "", 0, 0, ""⟩] = ⟨0, 0, 1, 1⟩ ∧
    applyCounts [] [⟨some 1, "d", "i", "", "", "", "", "", "", 0, 0, ""⟩] 77 = ⟨1, 0, 0, 0⟩ ∧
    previewCounts [] [⟨some 1, "d", "i", "", "", "", "", "", "", 0, 0, ""⟩] ≠
      applyCounts [] [⟨some 1, "d", "i", "", "", "", "", "", "", 0, 0, ""⟩] 77 := by
  decide

/-- The upsert's excluded row always satisfies the deleted-flag invariant. -/
theorem rowOfIncoming_flag (r : NormRecord) (i : Int) (nowTs : Int) (nowStr : String) :
    ((rowOfIncoming r i nowTs nowStr).is_deleted = 1 ↔
      (rowOfIncoming r i nowTs nowStr).deleted_at ≠ none) := by
  by_cases h : r.is_deleted = 1 <;> simp [rowOfIncoming, h]

/-- C5: every operation (create, update, soft-delete, restore, import
upsert) preserves the invariant that a persisted ticket has `is_deleted`
set iff `deleted_at` is non-null. -/
theorem deleted_iff_flag_preserved (s : Store) (m : Mutation) (nowTs : Int) (nowStr : String)
    (hinv : DeletedIffFlag s) : DeletedIffFlag (applyMutation s m nowTs nowStr) := by
  cases m with
  | create date issue department name solution remarks type =>
    intro row hrow
    rcases List.mem_append.mp hrow with h | h
    · exact hinv row h
    · rw [List.mem_singleton.mp h]
      simp
  | update id req =>
    rcases put_store_cases s id req nowTs nowStr with h | ⟨p, h⟩
    · rw [applyMutation, h]
      exact hinv
    · rw [applyMutation, h]
      intro row hrow
      rcases List.mem_map.mp hrow with ⟨x, hx, hfx⟩
      rw [← hfx]
      split
      · simpa [putUpdateRow] using hinv x hx
      · exact hinv x hx
  | softDelete id =>
    rw [applyMutation, delete_store_eq s id nowTs nowStr]
    intro row hrow
    rcases List.mem_map.mp hrow with ⟨x, hx, hfx⟩
    rw [← hfx]
    split
    · simp [deleteMarkRow]
    · exact hinv x hx
  | restore id =>
    rw [applyMutation, restore_store_eq s id nowTs nowStr]
    intro row hrow
    rcases List.mem_map.mp hrow with ⟨x, hx, hfx⟩
    rw [← hfx]
    split
    · simp [restoreMarkRow]
    · exact hinv x hx
  | importUpsert r =>
    rw [applyMutation]
    rcases hid : r.id with _ | j
    · rw [upsert_none_eq s r nowTs nowStr hid]
      intro row hrow
      rcases List.mem_append.mp hrow with h | h
      · exact hinv row h
      · rw [List.mem_singleton.mp h]
        exact rowOfIncoming_flag r (freshId s) nowTs nowStr
    · rw [upsert_some_eq s r nowTs nowStr j hid]
      by_cases hs : (s.find? (fun row => row.id == j)).isSome
      · rw [if_pos hs]
        intro row hrow
        rcases List.mem_map.mp hrow with ⟨x, hx, hfx⟩
        rw [← hfx]
        split
        · exact rowOfIncoming_flag r j nowTs nowStr
        · exact hinv x hx
      · rw [if_neg hs]
        intro row hrow
        rcases List.mem_append.mp hrow with h | h
        · exact hinv row h
        · rw [List.mem_singleton.mp h]
          exact rowOfIncoming_flag r j nowTs nowStr

/-- C5 witness: soft-deleting the only row of a store satisfying the
invariant yields a store satisfying the invariant. -/
theorem deleted_iff_flag_preserved_witness :
    DeletedIffFlag [⟨1, "d", "i", "", "", "", "", "", 0, none, "x", 1⟩] ∧
    DeletedIffFlag (applyMutation [⟨1, "d", "i", "", "", "", "", "", 0, none, "x", 1⟩]
      (.softDelete 1) 5 "t") :=
  ⟨by unfold DeletedIffFlag; decide,
    deleted_iff_flag_preserved [⟨1, "d", "i", "", "", "", "", "", 0, none, "x", 1⟩]
      (.softDelete 1) 5 "t" (by unfold DeletedIffFlag; decide)⟩

/-- With distinct ids, two stored rows sharing an id are the same row. -/
theorem row_eq_of_id_eq (s : Store) (hnodup : (s.map Row.id).Nodup) (x y : Row)
    (hx : x ∈ s) (hy : y ∈ s) (h : x.id = y.id) : x = y :=
  List.inj_on_of_nodup_map hnodup hx hy h

/-- C6: an update of an existing Active record with a supplied version token
(numeric or string, no force flag) that does not match the stored token
leaves the store unchanged — the conditional write affects zero rows — and
answers a 409 conflict carrying the current stored record and both the
client's and the server's version values. -/
theorem stale_version_conflict (s : Store) (id : Int) (req : PutReq) (nowTs : Int)
    (nowStr : String) (row : Row)
    (hnodup : (s.map Row.id).Nodup)
    (hfind : s.find? (fun x => x.id == id) = some row)
    (hactive : row.is_deleted = 0)
    (hforce : req.force = false)
    (hdate : jsTrim req.date ≠ "")
    (hissue : jsTrim req.issue ≠ "")
    (htok : (req.hasClientTs = true ∧ ¬ row.updated_at_ts = req.updated_at_ts.getD 0) ∨
            (req.hasClientTs = false ∧ jsTrim req.updated_at ≠ "" ∧
              ¬ row.updated_at = jsTrim req.updated_at)) :
    onRequestPut s id req nowTs nowStr =
      (s, .conflict (some row) (jsTrim req.updated_at)
          (if req.hasClientTs = true then req.updated_at_ts else none)
          row.updated_at row.updated_at_ts) ∧
    (PutResult.conflict (some row) (jsTrim req.updated_at)
          (if req.hasClientTs = true then req.updated_at_ts else none)
          row.updated_at row.updated_at_ts).status = 409 := by
  refine ⟨?_, rfl⟩
  have hrowmem : row ∈ s := List.mem_of_find?_eq_some hfind
  have hrowid : row.id = id := by simpa using List.find?_some hfind
  have hmatch : ∀ x ∈ s, (x.id == id && x.is_deleted == 0 &&
      (if req.force = true then true
       else if req.hasClientTs = true then x.updated_at_ts == req.updated_at_ts.getD 0
       else x.updated_at == jsTrim req.updated_at)) = false := by
    intro x hx
    by_cases hxid : x.id = id
    · have hxrow : x = row := row_eq_of_id_eq s hnodup x row hx hrowmem (hxid.trans hrowid.symm)
      subst hxrow
      rcases htok with ⟨h1, h2⟩ | ⟨h1, h2, h3⟩
      · simp [hforce, h1, h2]
      · simp [hforce, h1, h3]
    · simp [hxid]
  have hmap : s.map (fun x =>
      if (x.id == id && x.is_deleted == 0 &&
          (if req.force = true then true
           else if req.hasClientTs = true then x.updated_at_ts == req.updated_at_ts.getD 0
           else x.updated_at == jsTrim req.updated_at)) = true
      then putUpdateRow req nowTs nowStr x else x) = s := by
    refine map_eq_self_of_all s _ (fun x hx => ?_)
    rw [hmatch x hx]
    simp
  have hchanges : (s.filter (fun x => x.id == id && x.is_deleted == 0 &&
      (if req.force = true then true
       else if req.hasClientTs = true then x.updated_at_ts == req.updated_at_ts.getD 0
       else x.updated_at == jsTrim req.updated_at))).length = 0 := by
    rw [List.length_eq_zero, List.filter_eq_nil_iff]
    intro a ha
    rw [hmatch a ha]
    simp
  have hval : ¬ (jsTrim req.date = "" ∨ jsTrim req.issue = "") := by
    rw [not_or]
    exact ⟨hdate, hissue⟩
  have hdel : ¬ (row.is_deleted = 1) := by
    rw [hactive]
    decide
  have hmv : ¬ (req.force = false ∧ req.hasClientTs = false ∧ jsTrim req.updated_at = "") := by
    rintro ⟨-, hcts, hstr⟩
    rcases htok with ⟨h1, -⟩ | ⟨-, h2, -⟩
    · rw [h1] at hcts
      exact absurd hcts (by decide)
    · exact h2 hstr
  simp only [onRequestPut, hfind]
  rw [if_neg hval, if_neg hdel, if_neg hmv, hmap, hchanges, hfind]
  simp [hforce, hrowid]

/-- C6 witness: a concrete stale numeric token yields the 409 conflict with
the stored record and both version values, leaving the store unchanged. -/
theorem stale_version_conflict_witness :
    onRequestPut [⟨1, "d", "i", "", "", "", "", "", 0, none, "u0", 10⟩] 1
        ⟨"d2", "i2", "", "", "", "", "", false, some 7, ""⟩ 99 "t" =
      ([⟨1, "d", "i", "", "", "", "", "", 0, none, "u0", 10⟩],
        .conflict (some ⟨1, "d", "i", "", "", "", "", "", 0, none, "u0", 10⟩) (jsTrim "")
          (if PutReq.hasClientTs ⟨"d2", "i2", "", "", "", "", "", false, some 7, ""⟩ = true
           then some 7 else none) "u0" 10) :=
  (stale_version_conflict [⟨1, "d", "i", "", "", "", "", "", 0, none, "u0", 10⟩] 1
    ⟨"d2", "i2", "", "", "", "", "", false, some 7, ""⟩ 99 "t"
    ⟨1, "d", "i", "", "", "", "", "", 0, none, "u0", 10⟩
    (by decide) (by decide) (by decide) (by decide) (by decide) (by decide)
    (Or.inl ⟨by decide, by decide⟩)).1

/-- C7 counterexample: soft-deleting an already-Deleted record answers the
idempotent success `ok/already/soft` with status 200, not the "deleted"
error with status 410 that the claim asserts for soft-delete requests. -/
theorem delete_deleted_not_410 :
    onRequestDelete [⟨1, "d", "i", "", "", "", "", "", 1, some "t0", "u0", 10⟩] 1 99 "t" =
      ([⟨1, "d", "i", "", "", "", "", "", 1, some "t0", "u0", 10⟩], .alreadyDeleted) ∧
    DeleteResult.status .alreadyDeleted = 200 ∧
    ¬ DeleteResult.status .alreadyDeleted = 410 := by
  decide

/-- C7 (amended): on a Deleted record an update request signals the
"deleted" error with HTTP-adjacent status 410 and leaves the record
unmodified, while a soft-delete request succeeds idempotently (status 200
with the already flag) and also leaves the record unmodified. -/
theorem deleted_record_update_and_delete (s : Store) (id : Int) (req : PutReq) (nowTs : Int)
    (nowStr : String) (row : Row)
    (hnodup : (s.map Row.id).Nodup)
    (hfind : s.find? (fun x => x.id == id) = some row)
    (hdel : row.is_deleted = 1)
    (hdate : jsTrim req.date ≠ "")
    (hissue : jsTrim req.issue ≠ "") :
    onRequestPut s id req nowTs nowStr = (s, .deletedErr) ∧
    PutResult.status .deletedErr = 410 ∧
    onRequestDelete s id nowTs nowStr = (s, .alreadyDeleted) ∧
    DeleteResult.status .alreadyDeleted = 200 := by
  have hrowmem : row ∈ s := List.mem_of_find?_eq_some hfind
  have hrowid : row.id = id := by simpa using List.find?_some hfind
  have hval : ¬ (jsTrim req.date = "" ∨ jsTrim req.issue = "") := by
    rw [not_or]
    exact ⟨hdate, hissue⟩
  have hmatch : ∀ x ∈ s, (x.id == id && x.is_deleted == 0) = false := by
    intro x hx
    by_cases hxid : x.id = id
    · have hxrow : x = row := row_eq_of_id_eq s hnodup x row hx hrowmem (hxid.trans hrowid.symm)
      subst hxrow
      simp [hdel]
    · simp [hxid]
  have hmap : s.map (fun x =>
      if (x.id == id && x.is_deleted == 0) = true then deleteMarkRow nowTs nowStr x else x) = s := by
    refine map_eq_self_of_all s _ (fun x hx => ?_)
    rw [hmatch x hx]
    simp
  have hchanges : (s.filter (fun x => x.id == id && x.is_deleted == 0)).length = 0 := by
    rw [List.length_eq_zero, List.filter_eq_nil_iff]
    intro a ha
    rw [hmatch a ha]
    simp
  refine ⟨?_, rfl, ?_, rfl⟩
  · simp only [onRequestPut, hfind]
    rw [if_neg hval, if_pos hdel]
  · simp only [onRequestDelete]
    rw [hmap, hchanges, hfind]
    simp [hdel]

/-- C7 witness: concrete deleted record, update answers 410 and delete
answers the idempotent success, both leaving the store unchanged. -/
theorem deleted_record_update_and_delete_witness :
    onRequestPut [⟨1, "d", "i", "", "", "", "", "", 1, some "t0", "u0", 10⟩] 1
        ⟨"d2", "i2", "", "", "", "", "", false, some 10, ""⟩ 99 "t" =
      ([⟨1, "d", "i", "", "", "", "", "", 1, some "t0", "u0", 10⟩], .deletedErr) ∧
    PutResult.status .deletedErr = 410 :=
  ⟨((deleted_record_update_and_delete _ 1 ⟨"d2", "i2", "", "", "", "", "", false, some 10, ""⟩
      99 "t" ⟨1, "d", "i", "", "", "", "", "", 1, some "t0", "u0", 10⟩
      (by decide) (by decide) (by decide) (by decide) (by decide))).1,
    rfl⟩

/-- C8: restoring an already-Active record reports idempotent success with
the already flag (status 200) rather than an error, and soft-deleting an
already-Deleted record likewise; in both cases the store is unchanged. -/
theorem idempotent_restore_and_delete (s : Store) (id : Int) (nowTs : Int) (nowStr : String)
    (row : Row)
    (hnodup : (s.map Row.id).Nodup)
    (hfind : s.find? (fun x => x.id == id) = some row) :
    (row.is_deleted = 0 →
      restorePut s id nowTs nowStr = (s, .alreadyActive) ∧
      RestoreResult.status .alreadyActive = 200) ∧
    (row.is_deleted = 1 →
      onRequestDelete s id nowTs nowStr = (s, .alreadyDeleted) ∧
      DeleteResult.status .alreadyDeleted = 200) := by
  have hrowmem : row ∈ s := List.mem_of_find?_eq_some hfind
  have hrowid : row.id = id := by simpa using List.find?_some hfind
  constructor
  · intro hactive
    have hmatch : ∀ x ∈ s, (x.id == id && x.is_deleted == 1) = false := by
      intro x hx
      by_cases hxid : x.id = id
      · have hxrow : x = row := row_eq_of_id_eq s hnodup x row hx hrowmem (hxid.trans hrowid.symm)
        subst hxrow
        simp [hactive]
      · simp [hxid]
    have hmap : s.map (fun x =>
        if (x.id == id && x.is_deleted == 1) = true then restoreMarkRow nowTs nowStr x else x) = s := by
      refine map_eq_self_of_all s _ (fun x hx => ?_)
      rw [hmatch x hx]
      simp
    have hchanges : (s.filter (fun x => x.id == id && x.is_deleted == 1)).length = 0 := by
      rw [List.length_eq_zero, List.filter_eq_nil_iff]
      intro a ha
      rw [hmatch a ha]
      simp
    refine ⟨?_, rfl⟩
    simp only [restorePut]
    rw [hmap, hchanges, hfind]
    simp
  · intro hdel
    have hmatch : ∀ x ∈ s, (x.id == id && x.is_deleted == 0) = false := by
      intro x hx
      by_cases hxid : x.id = id
      · have hxrow : x = row := row_eq_of_id_eq s hnodup x row hx hrowmem (hxid.trans hrowid.symm)
        subst hxrow
        simp [hdel]
      · simp [hxid]
    have hmap : s.map (fun x =>
        if (x.id == id && x.is_deleted == 0) = true then deleteMarkRow nowTs nowStr x else x) = s := by
      refine map_eq_self_of_all s _ (fun x hx => ?_)
      rw [hmatch x hx]
      simp
    have hchanges : (s.filter (fun x => x.id == id && x.is_deleted == 0)).length = 0 := by
      rw [List.length_eq_zero, List.filter_eq_nil_iff]
      intro a ha
      rw [hmatch a ha]
      simp
    refine ⟨?_, rfl⟩
    simp only [onRequestDelete]
    rw [hmap, hchanges, hfind]
    simp [hdel]

/-- C8 witness: restoring a concrete Active record answers the idempotent
already-success and leaves the store unchanged. -/
theorem idempotent_restore_and_delete_witness :
    restorePut [⟨1, "d", "i", "", "", "", "", "", 0, none, "u0", 10⟩] 1 99 "t" =
      ([⟨1, "d", "i", "", "", "", "", "", 0, none, "u0", 10⟩], .alreadyActive) ∧
    RestoreResult.status .alreadyActive = 200 :=
  (idempotent_restore_and_delete [⟨1, "d", "i", "", "", "", "", "", 0, none, "u0", 10⟩] 1 99 "t"
    ⟨1, "d", "i", "", "", "", "", "", 0, none, "u0", 10⟩ (by decide) (by decide)).1 (by decide)

/-- Characters with equal code points are equal. -/
theorem char_eq_of_toNat (a b : Char) (h : a.toNat = b.toNat) : a = b :=
  Char.ext (UInt32.ext h)

/-- Code-unit lexicographic comparison is transitive. -/
theorem jsLtChars_trans : ∀ (a b c : List Char),
    jsLtChars a b = true → jsLtChars b c = true → jsLtChars a c = true
  | a, [], _ => fun h1 _ => by cases a <;> simp [jsLtChars] at h1
  | _, _ :: _, [] => fun _ h2 => by simp [jsLtChars] at h2
  | [], _ :: _, _ :: _ => fun _ _ => by simp [jsLtChars]
  | x :: xs, y :: ys, z :: zs => fun h1 h2 => by
    rw [jsLtChars] at h1 h2 ⊢
    by_cases hxy : x.toNat < y.toNat
    · rw [if_pos hxy] at h1
      by_cases hyz : y.toNat < z.toNat
      · rw [if_pos (show x.toNat < z.toNat by omega)]
      · rw [if_neg hyz] at h2
        by_cases hzy : z.toNat < y.toNat
        · rw [if_pos hzy] at h2
          exact absurd h2 (by decide)
        · rw [if_pos (show x.toNat < z.toNat by omega)]
    · rw [if_neg hxy] at h1
      by_cases hyx : y.toNat < x.toNat
      · rw [if_pos hyx] at h1
        exact absurd h1 (by decide)
      · rw [if_neg hyx] at h1
        by_cases hyz : y.toNat < z.toNat
        · rw [if_pos (show x.toNat < z.toNat by omega)]
        · rw [if_neg hyz] at h2
          by_cases hzy : z.toNat < y.toNat
          · rw [if_pos hzy] at h2
            exact absurd h2 (by decide)
          · rw [if_neg hzy] at h2
            rw [if_neg (show ¬ x.toNat < z.toNat by omega),
              if_neg (show ¬ z.toNat < x.toNat by omega)]
            exact jsLtChars_trans xs ys zs h1 h2

/-- Two char sequences that are not ordered either way are equal. -/
theorem jsLtChars_eq_of_not_lt : ∀ (a b : List Char),
    jsLtChars a b = false → jsLtChars b a = false → a = b
  | [], [] => fun _ _ => rfl
  | [], _ :: _ => fun h _ => by simp [jsLtChars] at h
  | _ :: _, [] => fun _ h => by simp [jsLtChars] at h
  | x :: xs, y :: ys => fun h1 h2 => by
    rw [jsLtChars] at h1 h2
    by_cases hxy : x.toNat < y.toNat
    · rw [if_pos hxy] at h1
      exact absurd h1 (by decide)
    · by_cases hyx : y.toNat < x.toNat
      · rw [if_pos hyx] at h2
        exact absurd h2 (by decide)
      · rw [if_neg hxy, if_neg hyx] at h1
        rw [if_neg hyx, if_neg hxy] at h2
        rw [char_eq_of_toNat x y (by omega), jsLtChars_eq_of_not_lt xs ys h1 h2]

/-- `jsLt` on strings: unordered both ways means equal. -/
theorem jsLt_eq_of_not_lt (a b : String) (h1 : jsLt a b = false) (h2 : jsLt b a = false) :
    a = b :=
  String.ext (jsLtChars_eq_of_not_lt a.data b.data h1 h2)

/-- `optKeyLt` is transitive. -/
theorem optKeyLt_trans : ∀ (a b c : Option String),
    optKeyLt a b = true → optKeyLt b c = true → optKeyLt a c = true
  | none, none, _ => fun h1 _ => by simp [optKeyLt] at h1
  | some _, none, _ => fun h1 _ => by simp [optKeyLt] at h1
  | _, some _, none => fun _ h2 => by simp [optKeyLt] at h2
  | none, some _, some _ => fun _ _ => rfl
  | some x, some y, some z => fun h1 h2 =>
    jsLtChars_trans x.data y.data z.data h1 h2

/-- `optKeyLt`: unordered both ways means equal. -/
theorem optKeyLt_eq_of_not_lt : ∀ (a b : Option String),
    optKeyLt a b = false → optKeyLt b a = false → a = b
  | none, none => fun _ _ => rfl
  | none, some _ => fun h1 _ => by simp [optKeyLt] at h1
  | some _, none => fun _ h2 => by simp [optKeyLt] at h2
  | some x, some y => fun h1 h2 => by rw [jsLt_eq_of_not_lt x y h1 h2]

/-- The DESC comparator used to model `ORDER BY sort_key DESC, id DESC` is
transitive. -/
theorem descLe_trans (trash : Bool) (a b c : Row) :
    descLe trash a b = true → descLe trash b c = true → descLe trash a c = true := by
  intro h1 h2
  simp only [descLe, Bool.or_eq_true, Bool.and_eq_true, decide_eq_true_eq] at h1 h2 ⊢
  rcases h1 with h1 | ⟨h1e, h1i⟩
  · rcases h2 with h2 | ⟨h2e, h2i⟩
    · exact Or.inl (optKeyLt_trans _ _ _ h2 h1)
    · exact Or.inl (h2e ▸ h1)
  · rcases h2 with h2 | ⟨h2e, h2i⟩
    · exact Or.inl (h1e ▸ h2)
    · exact Or.inr ⟨h2e.trans h1e, le_trans h2i h1i⟩

/-- The DESC comparator is total. -/
theorem descLe_total (trash : Bool) (a b : Row) :
    (descLe trash a b || descLe trash b a) = true := by
  simp only [descLe, Bool.or_eq_true, Bool.and_eq_true, decide_eq_true_eq]
  by_cases hba : optKeyLt (sqlKey trash b) (sqlKey trash a) = true
  · exact Or.inl (Or.inl hba)
  · by_cases hab : optKeyLt (sqlKey trash a) (sqlKey trash b) = true
    · exact Or.inr (Or.inl hab)
    · have he : sqlKey trash b = sqlKey trash a :=
        optKeyLt_eq_of_not_lt (sqlKey trash b) (sqlKey trash a)
          (Bool.eq_false_iff.mpr hba) (Bool.eq_false_iff.mpr hab)
      rcases le_total b.id a.id with hle | hle
      · exact Or.inl (Or.inr ⟨he, hle⟩)
      · exact Or.inr (Or.inr ⟨he.symm, hle⟩)

/-- C9: a prev-direction keyset page is the reverse of the DESC-limited
fetch, so the returned data is strictly ascending in `(sort_key, id)`; every
returned row comes from the store, satisfies the keyset predicate and the
trash filter; the page respects the size limit; and `next_cursor` /
`prev_cursor` encode the `(sort_key, id)` of the last / first returned row. -/
theorem prev_page_properties (s : Store) (trash : Bool) (c : Cursor) (pageSize : Nat)
    (hnodup : (s.map Row.id).Nodup) :
    ((onRequestGet_prev s trash c pageSize).data).Pairwise (ascLt trash) ∧
    (∀ row ∈ (onRequestGet_prev s trash c pageSize).data,
      row ∈ s ∧ keysetPrev trash c row = true ∧
      (row.is_deleted == (if trash then (1 : Nat) else 0)) = true) ∧
    (onRequestGet_prev s trash c pageSize).data.length ≤ pageSize ∧
    (onRequestGet_prev s trash c pageSize).next_cursor =
      ((onRequestGet_prev s trash c pageSize).data.getLast?).map
        (fun r => encodeCursor (cursorKeyStr trash r) r.id) ∧
    (onRequestGet_prev s trash c pageSize).prev_cursor =
      ((onRequestGet_prev s trash c pageSize).data.head?).map
        (fun r => encodeCursor (cursorKeyStr trash r) r.id) := by
  have hdata : (onRequestGet_prev s trash c pageSize).data = queryPrev s trash c pageSize := rfl
  have hF : List.Sublist (s.filter (fun row =>
      (row.is_deleted == (if trash then (1 : Nat) else 0)) && keysetPrev trash c row)) s :=
    List.filter_sublist s
  have hsorted : ((s.filter (fun row =>
      (row.is_deleted == (if trash then (1 : Nat) else 0)) &&
        keysetPrev trash c row)).mergeSort (descLe trash)).Pairwise
      (fun a b => descLe trash a b = true) :=
    List.sorted_mergeSort (descLe_trans trash) (descLe_total trash) _
  have hFid : ((s.filter (fun row =>
      (row.is_deleted == (if trash then (1 : Nat) else 0)) &&
        keysetPrev trash c row)).map Row.id).Nodup :=
    hnodup.sublist (hF.map Row.id)
  have hperm := List.mergeSort_perm (s.filter (fun row =>
      (row.is_deleted == (if trash then (1 : Nat) else 0)) && keysetPrev trash c row))
    (descLe trash)
  have hMid := ((hperm.map Row.id).nodup_iff).mpr hFid
  have hTid := hMid.sublist ((List.take_sublist pageSize _).map Row.id)
  have hRid : ((queryPrev s trash c pageSize).map Row.id).Nodup := by
    rw [queryPrev, List.map_reverse]
    exact List.nodup_reverse.mpr hTid
  have hP1 : (queryPrev s trash c pageSize).Pairwise
      (fun a b => descLe trash b a = true) := by
    rw [queryPrev]
    exact (List.pairwise_reverse).mpr (hsorted.sublist (List.take_sublist pageSize _))
  refine ⟨?_, ?_, ?_, rfl, rfl⟩
  · rw [hdata]
    refine (hP1.and (List.pairwise_map.mp hRid)).imp ?_
    rintro a b ⟨hle, hne⟩
    simp only [descLe, Bool.or_eq_true, Bool.and_eq_true, decide_eq_true_eq] at hle
    rcases hle with hlt | ⟨heq, hid⟩
    · exact Or.inl hlt
    · exact Or.inr ⟨heq, lt_of_le_of_ne hid hne⟩
  · rw [hdata]
    intro row hrow
    rw [queryPrev, List.mem_reverse] at hrow
    have hmem : row ∈ (s.filter (fun row =>
        (row.is_deleted == (if trash then (1 : Nat) else 0)) && keysetPrev trash c row)) :=
      hperm.subset ((List.take_sublist pageSize _).subset hrow)
    have := List.mem_filter.mp hmem
    rcases this with ⟨hmem_s, hcond⟩
    rw [Bool.and_eq_true] at hcond
    exact ⟨hmem_s, hcond.2, hcond.1⟩
  · rw [hdata, queryPrev, List.length_reverse, List.length_take]
    exact min_le_left _ _

/-- C9 witness: a two-row store with a prev cursor yields an ascending page. -/
theorem prev_page_properties_witness :
    ((onRequestGet_prev
        [⟨1, "2025-01-01", "a", "", "", "", "", "", 0, none, "u", 1⟩,
         ⟨2, "2025-02-02", "b", "", "", "", "", "", 0, none, "u", 1⟩]
        false ⟨"2025-09-09", 99⟩ 10).data).Pairwise (ascLt false) :=
  (prev_page_properties
    [⟨1, "2025-01-01", "a", "", "", "", "", "", 0, none, "u", 1⟩,
     ⟨2, "2025-02-02", "b", "", "", "", "", "", 0, none, "u", 1⟩]
    false ⟨"2025-09-09", 99⟩ 10 (by decide)).1

/-! ### Cursor codec round-trip lemmas -/

theorem b64inv_b64char : ∀ i, i < 64 → b64inv (b64char i) = some i := by
  decide

theorem b64char_mem : ∀ i, i < 64 → b64char i ∈ b64alphabet := by
  intro i h
  rw [b64char, List.getD_eq_getElem b64alphabet 'A' (by simpa using h)]
  exact List.getElem_mem _

theorem alpha_chars_ok : ∀ c ∈ b64alphabet,
    fromUrlChar (toUrlChar c) = c ∧ toUrlChar c ≠ '=' ∧ isJsWs (toUrlChar c) = false := by
  decide

theorem eq_char_ok :
    fromUrlChar (toUrlChar '=') = '=' ∧ isJsWs (toUrlChar '=') = false := by
  decide

theorem dropWhile_eq_self_of_none (p : Char → Bool) :
    ∀ (l : List Char), (∀ c ∈ l, p c = false) → l.dropWhile p = l := by
  intro l h
  cases l with
  | nil => rfl
  | cons a t =>
    rw [List.dropWhile_cons_of_neg]
    rw [h a (List.mem_cons_self a t)]
    exact Bool.false_ne_true

theorem jsTrim_eq_self (l : List Char) (h : ∀ c ∈ l, isJsWs c = false) :
    jsTrim (String.mk l) = String.mk l := by
  rw [jsTrim]
  have h1 : l.dropWhile isJsWs = l := dropWhile_eq_self_of_none isJsWs l h
  have h2 : l.reverse.dropWhile isJsWs = l.reverse :=
    dropWhile_eq_self_of_none isJsWs l.reverse (fun c hc => h c (List.mem_reverse.mp hc))
  show String.mk ((((String.mk l).data.dropWhile isJsWs).reverse.dropWhile isJsWs).reverse) = _
  rw [show (String.mk l).data = l from rfl, h1, h2, List.reverse_reverse]

theorem b64char_ne_eq : ∀ i, i < 64 → b64char i ≠ '=' := by
  decide

theorem deB64_encodeB64 : ∀ (bs : List Nat), (∀ b ∈ bs, b < 256) →
    deB64 (encodeB64 bs) = some bs
  | [], _ => rfl
  | [a], h => by
    have ha : a < 256 := h a (by simp)
    rw [encodeB64, deB64]
    rw [b64inv_b64char (a / 4) (by omega), b64inv_b64char (a % 4 * 16) (by omega)]
    simp only [Option.bind_eq_bind, Option.some_bind, Option.pure_def]
    congr 2
    omega
  | [a, b], h => by
    have ha : a < 256 := h a (by simp)
    have hb : b < 256 := h b (by simp)
    rw [encodeB64, deB64]
    · rw [b64inv_b64char (a / 4) (by omega), b64inv_b64char (a % 4 * 16 + b / 16) (by omega),
        b64inv_b64char (b % 16 * 4) (by omega)]
      simp only [Option.bind_eq_bind, Option.some_bind, Option.pure_def]
      congr 2
      · omega
      · congr 1
        omega
    · exact fun hc => b64char_ne_eq (b % 16 * 4) (by omega) hc
  | a :: b :: c :: rest, h => by
    have ha : a < 256 := h a (by simp)
    have hb : b < 256 := h b (by simp)
    have hc : c < 256 := h c (by simp)
    have ih := deB64_encodeB64 rest (fun x hx => h x (by simp [hx]))
    rw [encodeB64, deB64]
    · rw [b64inv_b64char (a / 4) (by omega), b64inv_b64char (a % 4 * 16 + b / 16) (by omega),
        b64inv_b64char (b % 16 * 4 + c / 64) (by omega), b64inv_b64char (c % 64) (by omega), ih]
      simp only [Option.bind_eq_bind, Option.some_bind, Option.pure_def]
      congr 2
      · omega
      · congr 1
        · omega
        · congr 1
          omega
    · exact fun _ hc4 _ => b64char_ne_eq (c % 64) (by omega) hc4
    · exact fun hc4 _ => b64char_ne_eq (c % 64) (by omega) hc4

theorem encodeB64_chars : ∀ (bs : List Nat), (∀ b ∈ bs, b < 256) →
    ∀ ch ∈ encodeB64 bs, ch ∈ b64alphabet ∨ ch = '='
  | [], _ => by simp [encodeB64]
  | [a], h => by
    have ha : a < 256 := h a (by simp)
    intro ch hch
    simp only [encodeB64, List.mem_cons, List.not_mem_nil, or_false] at hch
    rcases hch with h1 | h1 | h1 | h1 <;> rw [h1]
    · exact Or.inl (b64char_mem _ (by omega))
    · exact Or.inl (b64char_mem _ (by omega))
    · exact Or.inr rfl
    · exact Or.inr rfl
  | [a, b], h => by
    have ha : a < 256 := h a (by simp)
    have hb : b < 256 := h b (by simp)
    intro ch hch
    simp only [encodeB64, List.mem_cons, List.not_mem_nil, or_false] at hch
    rcases hch with h1 | h1 | h1 | h1 <;> rw [h1]
    · exact Or.inl (b64char_mem _ (by omega))
    · exact Or.inl (b64char_mem _ (by omega))
    · exact Or.inl (b64char_mem _ (by omega))
    · exact Or.inr rfl
  | a :: b :: c :: rest, h => by
    have ha : a < 256 := h a (by simp)
    have hb : b < 256 := h b (by simp)
    have hc : c < 256 := h c (by simp)
    have ih := encodeB64_chars rest (fun x hx => h x (by simp [hx]))
    intro ch hch
    simp only [encodeB64, List.mem_cons] at hch
    rcases hch with h1 | h1 | h1 | h1 | h1
    · rw [h1]
      exact Or.inl (b64char_mem _ (by omega))
    · rw [h1]
      exact Or.inl (b64char_mem _ (by omega))
    · rw [h1]
      exact Or.inl (b64char_mem _ (by omega))
    · rw [h1]
      exact Or.inl (b64char_mem _ (by omega))
    · exact ih ch h1

theorem dropWhile_append_of_ne_nil (p : Char → Bool) :
    ∀ (a b : List Char), a.dropWhile p ≠ [] → (a ++ b).dropWhile p = a.dropWhile p ++ b
  | [], _ => fun h => absurd rfl h
  | x :: a, b => fun h => by
    by_cases hx : p x = true
    · rw [List.dropWhile_cons, if_pos hx] at h
      rw [List.cons_append, List.dropWhile_cons, if_pos hx, List.dropWhile_cons, if_pos hx]
      exact dropWhile_append_of_ne_nil p a b h
    · rw [List.cons_append, List.dropWhile_cons, if_neg hx, List.dropWhile_cons, if_neg hx,
        List.cons_append]

theorem dropTrailingEq_append (x y : List Char) (h : dropTrailingEq y ≠ []) :
    dropTrailingEq (x ++ y) = x ++ dropTrailingEq y := by
  have h' : y.reverse.dropWhile (fun c => c = '=') ≠ [] := by
    intro h0
    rw [dropTrailingEq, h0] at h
    exact h rfl
  rw [dropTrailingEq, dropTrailingEq, List.reverse_append,
    dropWhile_append_of_ne_nil _ _ _ h', List.reverse_append, List.reverse_reverse]

theorem dropTrailingEq_append_singleton (x : List Char) (c : Char) (hc : c ≠ '=') :
    dropTrailingEq (x ++ [c]) = x ++ [c] := by
  rw [dropTrailingEq, List.reverse_append]
  show ((List.dropWhile _ (c :: x.reverse)).reverse) = _
  rw [List.dropWhile_cons, if_neg (by simpa using hc), List.reverse_cons, List.reverse_reverse]

theorem dropTrailingEq_ne_nil (c : Char) (l : List Char) (hc : c ≠ '=') :
    dropTrailingEq (c :: l) ≠ [] := by
  rw [dropTrailingEq]
  intro h0
  rw [List.reverse_eq_nil_iff, List.dropWhile_eq_nil_iff] at h0
  have := h0 c (by simp)
  exact hc (by simpa using this)

theorem encodeB64_head : ∀ (x : Nat) (xs : List Nat),
    ∃ t, encodeB64 (x :: xs) = b64char (x / 4) :: t
  | x, [] => ⟨_, rfl⟩
  | x, [y] => ⟨_, rfl⟩
  | x, y :: z :: r => ⟨_, rfl⟩

theorem toUrlChar_eq : toUrlChar '=' = '=' := rfl

theorem dropTrailingEq_two_eq (u1 u2 : Char) (h2 : u2 ≠ '=') :
    dropTrailingEq [u1, u2, '=', '='] = [u1, u2] := by
  simp [dropTrailingEq, List.dropWhile, h2]

theorem dropTrailingEq_one_eq (u1 u2 u3 : Char) (h3 : u3 ≠ '=') :
    dropTrailingEq [u1, u2, u3, '='] = [u1, u2, u3] := by
  simp [dropTrailingEq, List.dropWhile, h3]

theorem strip_repad : ∀ (bs : List Nat), (∀ b ∈ bs, b < 256) →
    dropTrailingEq ((encodeB64 bs).map toUrlChar) ++
      (if (dropTrailingEq ((encodeB64 bs).map toUrlChar)).length % 4 = 0 then []
       else List.replicate (4 - (dropTrailingEq ((encodeB64 bs).map toUrlChar)).length % 4) '=')
      = (encodeB64 bs).map toUrlChar
  | [], _ => by simp [encodeB64, dropTrailingEq]
  | [a], h => by
    have ha : a < 256 := h a (by simp)
    have h2 : toUrlChar (b64char (a % 4 * 16)) ≠ '=' :=
      (alpha_chars_ok _ (b64char_mem _ (by omega))).2.1
    rw [encodeB64]
    simp only [List.map_cons, List.map_nil, toUrlChar_eq]
    rw [dropTrailingEq_two_eq _ _ h2]
    rfl
  | [a, b], h => by
    have ha : a < 256 := h a (by simp)
    have hb : b < 256 := h b (by simp)
    have h3 : toUrlChar (b64char (b % 16 * 4)) ≠ '=' :=
      (alpha_chars_ok _ (b64char_mem _ (by omega))).2.1
    rw [encodeB64]
    simp only [List.map_cons, List.map_nil, toUrlChar_eq]
    rw [dropTrailingEq_one_eq _ _ _ h3]
    rfl
  | a :: b :: c :: rest, h => by
    have ha : a < 256 := h a (by simp)
    have hb : b < 256 := h b (by simp)
    have hc : c < 256 := h c (by simp)
    rw [encodeB64]
    cases rest with
    | nil =>
      have h4 : toUrlChar (b64char (c % 64)) ≠ '=' :=
        (alpha_chars_ok _ (b64char_mem _ (by omega))).2.1
      rw [show encodeB64 [] = [] from rfl]
      simp only [List.map_cons, List.map_nil]
      rw [show [toUrlChar (b64char (a / 4)), toUrlChar (b64char (a % 4 * 16 + b / 16)),
          toUrlChar (b64char (b % 16 * 4 + c / 64)), toUrlChar (b64char (c % 64))] =
        [toUrlChar (b64char (a / 4)), toUrlChar (b64char (a % 4 * 16 + b / 16)),
          toUrlChar (b64char (b % 16 * 4 + c / 64))] ++ [toUrlChar (b64char (c % 64))] from rfl]
      rw [dropTrailingEq_append_singleton _ _ h4]
      simp
    | cons r1 rs =>
      have ih := strip_repad (r1 :: rs) (fun x hx => h x (by simp at hx ⊢; tauto))
      obtain ⟨t, ht⟩ := encodeB64_head r1 rs
      have hr1 : r1 < 256 := h r1 (by simp)
      have hhd : toUrlChar (b64char (r1 / 4)) ≠ '=' :=
        (alpha_chars_ok _ (b64char_mem _ (by omega))).2.1
      have hne : dropTrailingEq ((encodeB64 (r1 :: rs)).map toUrlChar) ≠ [] := by
        rw [ht, List.map_cons]
        exact dropTrailingEq_ne_nil _ _ hhd
      simp only [List.map_cons]
      rw [show (toUrlChar (b64char (a / 4)) :: toUrlChar (b64char (a % 4 * 16 + b / 16)) ::
          toUrlChar (b64char (b % 16 * 4 + c / 64)) :: toUrlChar (b64char (c % 64)) ::
          (encodeB64 (r1 :: rs)).map toUrlChar) =
        ([toUrlChar (b64char (a / 4)), toUrlChar (b64char (a % 4 * 16 + b / 16)),
          toUrlChar (b64char (b % 16 * 4 + c / 64)), toUrlChar (b64char (c % 64))] ++
          (encodeB64 (r1 :: rs)).map toUrlChar) from rfl]
      rw [dropTrailingEq_append _ _ hne]
      rw [List.length_append]
      have hmod : ∀ n : Nat, (4 + n) % 4 = n % 4 := fun n => by omega
      rw [show ([toUrlChar (b64char (a / 4)), toUrlChar (b64char (a % 4 * 16 + b / 16)),
          toUrlChar (b64char (b % 16 * 4 + c / 64)), toUrlChar (b64char (c % 64))]).length = 4
        from rfl]
      rw [hmod]
      rw [List.append_assoc, ih]

theorem dropTrailingEq_subset (l : List Char) : ∀ c ∈ dropTrailingEq l, c ∈ l := by
  intro c hc
  rw [dropTrailingEq, List.mem_reverse] at hc
  exact List.mem_reverse.mp ((List.dropWhile_sublist _).subset hc)

theorem b64url_roundtrip (bytes : List Nat) (hb : ∀ b ∈ bytes, b < 256) (hne : bytes ≠ []) :
    b64urlDecodeToString (String.mk (dropTrailingEq ((encodeB64 bytes).map toUrlChar))) =
      String.mk (bytes.map Char.ofNat) := by
  have hUchars : ∀ ch ∈ (encodeB64 bytes).map toUrlChar, isJsWs ch = false := by
    intro ch hch
    rcases List.mem_map.mp hch with ⟨e, he, rfl⟩
    rcases encodeB64_chars bytes hb e he with halpha | heq
    · exact (alpha_chars_ok e halpha).2.2
    · rw [heq]
      exact eq_char_ok.2
  have hSchars : ∀ ch ∈ dropTrailingEq ((encodeB64 bytes).map toUrlChar), isJsWs ch = false :=
    fun ch hch => hUchars ch (dropTrailingEq_subset _ ch hch)
  have hSne : dropTrailingEq ((encodeB64 bytes).map toUrlChar) ≠ [] := by
    rcases bytes with _ | ⟨x, xs⟩
    · exact absurd rfl hne
    · obtain ⟨t, ht⟩ := encodeB64_head x xs
      rw [ht, List.map_cons]
      refine dropTrailingEq_ne_nil _ _ ?_
      exact (alpha_chars_ok _ (b64char_mem _ (by
        have := hb x (by simp)
        omega))).2.1
  have hfrom : ∀ e ∈ encodeB64 bytes, fromUrlChar (toUrlChar e) = e := by
    intro e he
    rcases encodeB64_chars bytes hb e he with halpha | heq
    · exact (alpha_chars_ok e halpha).1
    · rw [heq]
      exact eq_char_ok.1
  simp only [b64urlDecodeToString]
  rw [jsTrim_eq_self _ hSchars]
  rw [show (String.mk (dropTrailingEq ((encodeB64 bytes).map toUrlChar))).data =
    dropTrailingEq ((encodeB64 bytes).map toUrlChar) from rfl]
  rw [if_neg (by simpa [List.isEmpty_iff] using hSne)]
  rw [strip_repad bytes hb]
  rw [List.map_map]
  have hmapid : (encodeB64 bytes).map (fromUrlChar ∘ toUrlChar) = (encodeB64 bytes).map id :=
    List.map_congr_left (fun e he => hfrom e he)
  rw [hmapid, List.map_id]
  rw [deB64_encodeB64 bytes hb]

theorem expectChars_append : ∀ (p rest : List Char), expectChars p (p ++ rest) = some rest
  | [], _ => rfl
  | c :: p, rest => by
    rw [List.cons_append, expectChars, if_pos rfl]
    exact expectChars_append p rest

theorem digitChar_toNat : ∀ d, d < 10 → (digitChar d).toNat = 48 + d := by
  decide

theorem isDigitCh_digitChar : ∀ d, d < 10 → isDigitCh (digitChar d) = true := by
  decide

theorem natDigits_digits (n : Nat) : ∀ ch ∈ natDigits n, isDigitCh ch = true := by
  induction n using Nat.strong_induction_on with
  | _ n ih =>
    rw [natDigits]
    by_cases h : n < 10
    · rw [if_pos h]
      intro ch hch
      rw [List.mem_singleton.mp hch]
      exact isDigitCh_digitChar n h
    · rw [if_neg h]
      intro ch hch
      rcases List.mem_append.mp hch with h1 | h1
      · exact ih (n / 10) (Nat.div_lt_self (by omega) (by omega)) ch h1
      · rw [List.mem_singleton.mp h1]
        exact isDigitCh_digitChar _ (Nat.mod_lt n (by omega))

theorem natDigits_ne_nil (n : Nat) : natDigits n ≠ [] := by
  rw [natDigits]
  split <;> simp

theorem foldl_natDigits (n : Nat) : ∀ z : Nat,
    (natDigits n).foldl (fun acc c => acc * 10 + (c.toNat - 48)) z =
      z * 10 ^ (natDigits n).length + n := by
  induction n using Nat.strong_induction_on with
  | _ n ih =>
    intro z
    rw [natDigits]
    by_cases h : n < 10
    · rw [if_pos h]
      simp only [List.foldl, List.length_cons, List.length_nil, pow_one, zero_add]
      rw [digitChar_toNat n h]
      omega
    · rw [if_neg h]
      rw [List.foldl_append]
      rw [ih (n / 10) (Nat.div_lt_self (by omega) (by omega)) z]
      simp only [List.foldl, List.length_append, List.length_cons, List.length_nil, zero_add]
      rw [digitChar_toNat (n % 10) (Nat.mod_lt n (by omega))]
      rw [pow_succ, ← mul_assoc]
      generalize z * 10 ^ (natDigits (n / 10)).length = A
      omega

theorem takeWhile_append_of (p : Char → Bool) :
    ∀ (a : List Char), (∀ c ∈ a, p c = true) → ∀ (x : Char), p x = false → ∀ (t : List Char),
      (a ++ x :: t).takeWhile p = a ∧ (a ++ x :: t).dropWhile p = x :: t
  | [], _, x, hx, t => by
    constructor
    · rw [List.nil_append, List.takeWhile_cons, if_neg (by simp [hx])]
    · rw [List.nil_append, List.dropWhile_cons, if_neg (by simp [hx])]
  | c :: a, h0, x, hx, t => by
    have hc : p c = true := h0 c (by simp)
    have ih := takeWhile_append_of p a (fun d hd => h0 d (by simp [hd])) x hx t
    constructor
    · rw [List.cons_append, List.takeWhile_cons, if_pos hc, ih.1]
    · rw [List.cons_append, List.dropWhile_cons, if_pos hc, ih.2]

theorem parseDigits_natDigits (n : Nat) (x : Char) (hx : isDigitCh x = false) (t : List Char) :
    parseDigits (natDigits n ++ x :: t) = some (n, x :: t) := by
  have h := takeWhile_append_of isDigitCh (natDigits n) (natDigits_digits n) x hx t
  simp only [parseDigits]
  rw [h.1, h.2]
  rw [if_neg (by simpa [List.isEmpty_iff] using natDigits_ne_nil n)]
  rw [foldl_natDigits n 0]
  simp

theorem isDigitCh_ne_dash (c : Char) (h : isDigitCh c = true) : ¬ c = '-' := by
  intro he
  rw [he] at h
  exact absurd h (by decide)

theorem parseInt_intChars (i : Int) (x : Char) (hx : isDigitCh x = false) (t : List Char) :
    parseInt (intChars i ++ x :: t) = some (i, x :: t) := by
  rw [intChars]
  by_cases hi : i < 0
  · rw [if_pos hi, List.cons_append, parseInt, if_pos rfl]
    rw [parseDigits_natDigits _ _ hx]
    rw [Option.map_some']
    congr 2
    omega
  · rw [if_neg hi]
    obtain ⟨d, ds, hd⟩ := List.exists_cons_of_ne_nil (natDigits_ne_nil i.toNat)
    rw [hd, List.cons_append, parseInt]
    rw [if_neg (isDigitCh_ne_dash d (natDigits_digits i.toNat d (by rw [hd]; simp)))]
    rw [← List.cons_append, ← hd]
    rw [parseDigits_natDigits _ _ hx]
    rw [Option.map_some']
    congr 2
    omega

theorem hexVal_hexDigitChar : ∀ n, n < 16 → hexVal (hexDigitChar n) = some n := by
  decide

theorem unesc_escList : ∀ (l rest : List Char),
    unesc (escList l ++ '"' :: rest) = some (l, rest)
  | [], rest => by
    rw [show escList [] = [] from rfl, List.nil_append, unesc.eq_def]
    simp
  | c :: l, rest => by
    have ih := unesc_escList l rest
    have hesc : escList (c :: l) = escChar c ++ escList l := by
      rw [escList, escList, List.map_cons, List.flatten_cons]
    rw [hesc, List.append_assoc, escChar]
    by_cases h1 : c = '"'
    · rw [if_pos h1, h1]
      rw [unesc.eq_def]
      simp [ih]
    · rw [if_neg h1]
      by_cases h2 : c = '\\'
      · rw [if_pos h2, h2]
        rw [unesc.eq_def]
        simp [ih]
      · rw [if_neg h2]
        by_cases h3 : c = Char.ofNat 8
        · rw [if_pos h3, h3]
          rw [unesc.eq_def]
          simp [ih]
        · rw [if_neg h3]
          by_cases h4 : c = Char.ofNat 9
          · rw [if_pos h4, h4]
            rw [unesc.eq_def]
            simp [ih]
          · rw [if_neg h4]
            by_cases h5 : c = Char.ofNat 10
            · rw [if_pos h5, h5]
              rw [unesc.eq_def]
              simp [ih]
            · rw [if_neg h5]
              by_cases h6 : c = Char.ofNat 12
              · rw [if_pos h6, h6]
                rw [unesc.eq_def]
                simp [ih]
              · rw [if_neg h6]
                by_cases h7 : c = Char.ofNat 13
                · rw [if_pos h7, h7]
                  rw [unesc.eq_def]
                  simp [ih]
                · rw [if_neg h7]
                  by_cases h8 : c.toNat < 32
                  · rw [if_pos h8]
                    have e1 : hexVal (hexDigitChar (c.toNat / 16)) = some (c.toNat / 16) :=
                      hexVal_hexDigitChar _ (by omega)
                    have e2 : hexVal (hexDigitChar (c.toNat % 16)) = some (c.toNat % 16) :=
                      hexVal_hexDigitChar _ (by omega)
                    have e3 : Char.ofNat (((0 * 16 + 0) * 16 + c.toNat / 16) * 16 + c.toNat % 16)
                        = c := by
                      have e4 : ((0 * 16 + 0) * 16 + c.toNat / 16) * 16 + c.toNat % 16
                          = c.toNat := by omega
                      rw [e4, Char.ofNat_toNat]
                    have e5 : Char.ofNat (c.toNat / 16 * 16 + c.toNat % 16) = c := by
                      have e4 : c.toNat / 16 * 16 + c.toNat % 16 = c.toNat := by omega
                      rw [e4, Char.ofNat_toNat]
                    have hz : hexVal '0' = some 0 := by decide
                    rw [unesc.eq_def]
                    simp [ih, e1, e2, e3, e5, hz]
                  · rw [if_neg h8]
                    rw [show [c] ++ (escList l ++ '"' :: rest) = c :: (escList l ++ '"' :: rest)
                      from rfl]
                    rw [unesc.eq_def]
                    simp [h1, h2, ih]

theorem parseCursorJson_jsonOfCursor (v : String) (n : Int) :
    parseCursorJson (jsonOfCursor v n) = some (v, n) := by
  have h1 : jsonOfCursor v n =
      ('\x7b' :: '"' :: 'v' :: '"' :: ':' :: '"' :: []) ++
        (escList v.data ++ '"' :: ((',' :: '"' :: 'i' :: 'd' :: '"' :: ':' :: []) ++
          (intChars n ++ '\x7d' :: []))) := by
    rw [jsonOfCursor]
    simp
  rw [h1]
  simp only [parseCursorJson, Option.bind_eq_bind]
  rw [expectChars_append]
  simp only [Option.some_bind]
  rw [unesc_escList]
  simp only [Option.some_bind]
  rw [expectChars_append]
  simp only [Option.some_bind]
  rw [parseInt_intChars n '\x7d' (by decide) []]
  simp only [Option.some_bind]
  rw [show expectChars ('\x7d' :: []) ('\x7d' :: []) = some ([] : List Char) from rfl]
  simp

theorem hexDigit_bound : ∀ n, n < 16 → (hexDigitChar n).toNat < 256 := by
  decide

theorem escChar_bounds (c : Char) (hc : c.toNat < 256) :
    ∀ ch ∈ escChar c, ch.toNat < 256 := by
  intro ch hch
  rw [escChar] at hch
  by_cases h1 : c = '"'
  · rw [if_pos h1] at hch
    rcases List.mem_cons.mp hch with h | h
    · rw [h]; decide
    · rw [List.mem_singleton.mp h]; decide
  · rw [if_neg h1] at hch
    by_cases h2 : c = '\\'
    · rw [if_pos h2] at hch
      rcases List.mem_cons.mp hch with h | h
      · rw [h]; decide
      · rw [List.mem_singleton.mp h]; decide
    · rw [if_neg h2] at hch
      by_cases h3 : c = Char.ofNat 8
      · rw [if_pos h3] at hch
        rcases List.mem_cons.mp hch with h | h
        · rw [h]; decide
        · rw [List.mem_singleton.mp h]; decide
      · rw [if_neg h3] at hch
        by_cases h4 : c = Char.ofNat 9
        · rw [if_pos h4] at hch
          rcases List.mem_cons.mp hch with h | h
          · rw [h]; decide
          · rw [List.mem_singleton.mp h]; decide
        · rw [if_neg h4] at hch
          by_cases h5 : c = Char.ofNat 10
          · rw [if_pos h5] at hch
            rcases List.mem_cons.mp hch with h | h
            · rw [h]; decide
            · rw [List.mem_singleton.mp h]; decide
          · rw [if_neg h5] at hch
            by_cases h6 : c = Char.ofNat 12
            · rw [if_pos h6] at hch
              rcases List.mem_cons.mp hch with h | h
              · rw [h]; decide
              · rw [List.mem_singleton.mp h]; decide
            · rw [if_neg h6] at hch
              by_cases h7 : c = Char.ofNat 13
              · rw [if_pos h7] at hch
                rcases List.mem_cons.mp hch with h | h
                · rw [h]; decide
                · rw [List.mem_singleton.mp h]; decide
              · rw [if_neg h7] at hch
                by_cases h8 : c.toNat < 32
                · rw [if_pos h8] at hch
                  simp only [List.mem_cons, List.not_mem_nil, or_false] at hch
                  rcases hch with h | h | h | h | h | h
                  · rw [h]; decide
                  · rw [h]; decide
                  · rw [h]; decide
                  · rw [h]; decide
                  · rw [h]; exact hexDigit_bound _ (by omega)
                  · rw [h]; exact hexDigit_bound _ (by omega)
                · rw [if_neg h8] at hch
                  rw [List.mem_singleton.mp hch]
                  exact hc

theorem natDigits_bounds (n : Nat) : ∀ ch ∈ natDigits n, ch.toNat < 256 := by
  intro ch hch
  have := natDigits_digits n ch hch
  rw [isDigitCh, decide_eq_true_eq] at this
  omega

theorem intChars_bounds (n : Int) : ∀ ch ∈ intChars n, ch.toNat < 256 := by
  intro ch hch
  rw [intChars] at hch
  by_cases hi : n < 0
  · rw [if_pos hi] at hch
    rcases List.mem_cons.mp hch with h | h
    · rw [h]; decide
    · exact natDigits_bounds _ ch h
  · rw [if_neg hi] at hch
    exact natDigits_bounds _ ch hch

theorem jsonOfCursor_bounds (v : String) (n : Int)
    (h : ∀ c ∈ v.data, c.toNat < 256) : ∀ ch ∈ jsonOfCursor v n, ch.toNat < 256 := by
  have hesc : ∀ ch ∈ escList v.data, ch.toNat < 256 := by
    intro ch hch
    rw [escList] at hch
    rcases List.mem_flatten.mp hch with ⟨chunk, hchunk, hin⟩
    rcases List.mem_map.mp hchunk with ⟨c0, hc0, rfl⟩
    exact escChar_bounds c0 (h c0 hc0) ch hin
  rw [jsonOfCursor]
  refine List.forall_mem_cons.mpr ⟨by decide, ?_⟩
  refine List.forall_mem_cons.mpr ⟨by decide, ?_⟩
  refine List.forall_mem_cons.mpr ⟨by decide, ?_⟩
  refine List.forall_mem_cons.mpr ⟨by decide, ?_⟩
  refine List.forall_mem_cons.mpr ⟨by decide, ?_⟩
  refine List.forall_mem_cons.mpr ⟨by decide, ?_⟩
  refine List.forall_mem_append.mpr ⟨hesc, ?_⟩
  refine List.forall_mem_cons.mpr ⟨by decide, ?_⟩
  refine List.forall_mem_cons.mpr ⟨by decide, ?_⟩
  refine List.forall_mem_cons.mpr ⟨by decide, ?_⟩
  refine List.forall_mem_cons.mpr ⟨by decide, ?_⟩
  refine List.forall_mem_cons.mpr ⟨by decide, ?_⟩
  refine List.forall_mem_cons.mpr ⟨by decide, ?_⟩
  refine List.forall_mem_cons.mpr ⟨by decide, ?_⟩
  refine List.forall_mem_append.mpr ⟨intChars_bounds n, ?_⟩
  intro ch hch
  rw [List.mem_singleton.mp hch]
  decide

/-- C10 counterexample: with a sort-key value outside the Latin-1 range the
encoder's `btoa` throws (modelled as `none`), so the encoded cursor does not
decode back to the boundary — the round trip fails as universally stated. -/
theorem cursor_encode_fails_non_latin1 :
    encodeCursor "日" 1 = none ∧
    ¬ ((encodeCursor "日" 1).bind decodeCursor = some ⟨"日", 1⟩) := by
  have hnd : natDigits (Int.toNat 1) = ['1'] := by
    rw [natDigits, if_pos (by omega)]
    decide
  have hjsonval : jsonOfCursor "日" 1 =
      ['\x7b', '"', 'v', '"', ':', '"', '日', '"', ',', '"', 'i', 'd', '"', ':', '1', '\x7d'] := by
    rw [jsonOfCursor, intChars, if_neg (by omega), hnd]
    decide
  have henc : encodeCursor "日" 1 = none := by
    rw [encodeCursor, b64urlEncodeFromString,
      show (String.mk (jsonOfCursor ("日" : String) 1)).data = jsonOfCursor ("日" : String) 1
        from rfl,
      hjsonval, btoaBytes, if_neg (by decide)]
    rfl
  exact ⟨henc, by rw [henc]; simp⟩

/-- C10 (amended): for every boundary whose sort-key value is a non-empty
string of Latin-1 characters (code units below 256 — every date and
timestamp the store produces) and an integer id, decoding the encoded cursor
recovers exactly that boundary (`Math.trunc` is the identity on integers). -/
theorem cursor_roundtrip (v : String) (n : Int) (hv : v ≠ "")
    (hlatin : ∀ c ∈ v.data, c.toNat < 256) :
    (encodeCursor v n).bind decodeCursor = some ⟨v, n⟩ := by
  have hjson := jsonOfCursor_bounds v n hlatin
  have hjson_ne : jsonOfCursor v n ≠ [] := by
    rw [jsonOfCursor]
    simp
  have hbytes : ∀ b ∈ (jsonOfCursor v n).map Char.toNat, b < 256 := by
    intro b hb
    rcases List.mem_map.mp hb with ⟨c0, hc0, rfl⟩
    exact hjson c0 hc0
  have hbytes_ne : (jsonOfCursor v n).map Char.toNat ≠ [] := by
    intro h0
    exact hjson_ne (List.map_eq_nil_iff.mp h0)
  have henc : encodeCursor v n = some (String.mk (dropTrailingEq
      ((encodeB64 ((jsonOfCursor v n).map Char.toNat)).map toUrlChar))) := by
    rw [encodeCursor, b64urlEncodeFromString]
    rw [show (String.mk (jsonOfCursor v n)).data = jsonOfCursor v n from rfl]
    rw [btoaBytes, if_pos (by
      rw [List.all_eq_true]
      intro c hc
      simpa using hjson c hc)]
    rw [Option.map_some']
  rw [henc, Option.some_bind]
  have hdec := b64url_roundtrip ((jsonOfCursor v n).map Char.toNat) hbytes hbytes_ne
  have hback : ((jsonOfCursor v n).map Char.toNat).map Char.ofNat = jsonOfCursor v n := by
    rw [List.map_map]
    have hmapid : (jsonOfCursor v n).map (Char.ofNat ∘ Char.toNat) =
        (jsonOfCursor v n).map (fun c => c) :=
      List.map_congr_left (fun c0 _ => Char.ofNat_toNat c0)
    rw [hmapid]
    exact List.map_id' (jsonOfCursor v n)
  rw [hback] at hdec
  simp only [decodeCursor]
  rw [hdec]
  rw [if_neg (by
    intro h0
    exact hjson_ne (congrArg String.data h0))]
  rw [show (String.mk (jsonOfCursor v n)).data = jsonOfCursor v n from rfl]
  rw [parseCursorJson_jsonOfCursor]
  simp [hv]

/-- C10 witness: a concrete date boundary round-trips through the codec. -/
theorem cursor_roundtrip_witness :
    ((encodeCursor "2025-01-01" 42).bind decodeCursor = some ⟨"2025-01-01", 42⟩) ∧
    ("2025-01-01" : String) ≠ "" :=
  ⟨cursor_roundtrip "2025-01-01" 42 (by decide) (by decide), by decide⟩

end Tikets
